import Mathlib

/-!
# FyneDesk session controller (`internal/ui/desk.go`)

A shallow embedding of the `desktop` type of `internal/ui/desk.go` and of the
methods that mutate it.

Conventions of the embedding:

* A `float32` used in arithmetic or comparisons (positions, sizes, the scale
  given to `scaleVars`) is a `Float32Val`: a finite value as the exact rational
  it denotes, the negative zero, an infinity or NaN.  Sums and differences are
  rounded to the nearest `float32`, halves to the even mantissa, as the
  hardware does; comparisons are those of IEEE 754.
* The canvas scale of a screen and the launcher settings are finite values,
  kept as exact rationals: no arithmetic is done on them, and the conversions
  `float64(...)` and `float32(...)` applied to them are taken as exact.
* A `range` over a Go map (the shortcuts of a key-binding module) visits the
  entries in the order of the list that stands for the map.
* The collaborators of the controller (bar, widget panel, background, settings
  store, module instances, applications) are not part of `desk.go`.  `Resize`
  and `Move` set the size and the position that `Size()` and `Position()` read
  back; every other call the controller makes to a collaborator is appended to
  the `calls` log of the state, with the arguments (and, for the bar and the
  widget panel, the receiver) it was made with.
* A method that can dereference a nil pointer returns an `Option`; `none` is
  the Go run-time panic.
-/

namespace FyneDesk

/-! ## Go values -/

/-- A Go slice value; `none` is the nil slice, `some xs` a non-nil slice. -/
abbrev Slice (α : Type) := Option (List α)

/-- The elements of a slice (`range s`). -/
def Slice.elems {α : Type} : Slice α → List α
  | none => []
  | some xs => xs

/-- Go `append(s, x)`: the result is never nil. -/
def Slice.append {α : Type} (s : Slice α) (x : α) : Slice α :=
  some (s.elems ++ [x])

/-- Go `math.Round` on a finite value: nearest integer, halves away from zero. -/
def mathRound (x : ℚ) : ℤ :=
  if 0 ≤ x then ⌊x + 1 / 2⌋ else -⌊-x + 1 / 2⌋

/-- Nearest natural number to a non-negative value, halves to the even neighbour. -/
def roundHalfEven (x : ℚ) : ℕ :=
  let n := ⌊x⌋.toNat
  let frac := x - n
  if frac < 1 / 2 then n
  else if 1 / 2 < frac then n + 1
  else if n % 2 = 0 then n else n + 1

/-- Go `strconv.FormatFloat(x, 'f', 1, 32)` on a finite value: the sign, the
integer part, a point and one decimal digit; the decimal expansion is rounded
to that digit with halves going to the even digit. -/
def FormatFloat1 (x : ℚ) : String :=
  let n := roundHalfEven (|x| * 10)
  (if x < 0 then "-" else "") ++ toString (n / 10) ++ "." ++ toString (n % 10)

/-- Go `strconv.Itoa`. -/
def Itoa (i : ℤ) : String := toString i

/-! ## The `float32` type -/

/-- A `float32` value.  `finite x` is the finite value `x` (positive zero for
`x = 0`); the values of the type are those `x` that `round32` leaves unchanged,
and the operations below are also defined on the other rationals. -/
inductive Float32Val where
  | finite (x : ℚ)
  | negZero
  | posInf
  | negInf
  | nan
deriving DecidableEq

/-- The exponent of the binade of a positive value, the smallest normal
exponent for the subnormal values. -/
def binade (a : ℚ) : ℤ := max (Int.log 2 a) (-126)

/-- The magnitude `a ≥ 0` rounded to 24 significant bits (to a multiple of
`2 ^ (-149)` below the normal range), halves to the even mantissa. -/
def roundedMagnitude (a : ℚ) : ℚ :=
  (roundHalfEven (a / 2 ^ (binade a - 23)) : ℚ) * 2 ^ (binade a - 23)

/-- The `float32` nearest to the real value `q` (IEEE 754 round to nearest,
ties to even): an infinity from `2 ^ 128` on, a signed zero on underflow. -/
def round32 (q : ℚ) : Float32Val :=
  let mag := roundedMagnitude |q|
  if 2 ^ 128 ≤ mag then (if q < 0 then Float32Val.negInf else Float32Val.posInf)
  else if mag = 0 then (if q < 0 then Float32Val.negZero else Float32Val.finite 0)
  else Float32Val.finite (if q < 0 then -mag else mag)

/-- Go unary `-` on `float32`. -/
def Float32Val.neg : Float32Val → Float32Val
  | finite x => if x = 0 then negZero else finite (-x)
  | negZero => finite 0
  | posInf => negInf
  | negInf => posInf
  | nan => nan

/-- Go `+` on `float32`. -/
def Float32Val.add : Float32Val → Float32Val → Float32Val
  | finite x, finite y => round32 (x + y)
  | finite x, negZero => finite x
  | negZero, finite y => finite y
  | negZero, negZero => negZero
  | nan, _ => nan
  | _, nan => nan
  | posInf, negInf => nan
  | negInf, posInf => nan
  | posInf, _ => posInf
  | _, posInf => posInf
  | negInf, _ => negInf
  | _, negInf => negInf

/-- Go `-` on `float32`. -/
def Float32Val.sub (a b : Float32Val) : Float32Val := a.add b.neg

/-- Go `<=` on `float32`: false when an operand is NaN, the two zeros equal. -/
def Float32Val.le : Float32Val → Float32Val → Bool
  | finite x, finite y => decide (x ≤ y)
  | finite x, negZero => decide (x ≤ 0)
  | negZero, finite y => decide (0 ≤ y)
  | negZero, negZero => true
  | nan, _ => false
  | _, nan => false
  | negInf, _ => true
  | _, posInf => true
  | posInf, _ => false
  | _, negInf => false

/-- Go `>=` on `float32`. -/
def Float32Val.ge (a b : Float32Val) : Bool := b.le a

/-- The real value of a finite `float32`. -/
def Float32Val.toRat? : Float32Val → Option ℚ
  | finite x => some x
  | negZero => some 0
  | _ => none

/-- Go `int(f)` for a `float64` whose value is the integer `z`, with the 64-bit
`int` of amd64: the value itself when it fits, the smallest `int` when it does
not (the language leaves that case to the implementation). -/
def intOfFloat (z : ℤ) : ℤ :=
  if -2 ^ 63 ≤ z ∧ z < 2 ^ 63 then z else -2 ^ 63

/-- Go `int(math.Round(float64(scale)))` for a `float32`: the conversion to
`float64` and the rounding are exact; NaN and the infinities convert to the
smallest `int` on amd64. -/
def roundToInt : Float32Val → ℤ
  | Float32Val.finite x => intOfFloat (mathRound x)
  | Float32Val.negZero => 0
  | Float32Val.posInf => -2 ^ 63
  | Float32Val.negInf => -2 ^ 63
  | Float32Val.nan => -2 ^ 63

/-- Go `strconv.FormatFloat(float64(scale), 'f', 1, 32)` for a `float32`. -/
def FormatFloat32 : Float32Val → String
  | Float32Val.finite x => FormatFloat1 x
  | Float32Val.negZero => "-0.0"
  | Float32Val.posInf => "+Inf"
  | Float32Val.negInf => "-Inf"
  | Float32Val.nan => "NaN"

/-! ## Collaborator data -/

/-- The type `fyne.Position`. -/
structure Position where
  X : Float32Val
  Y : Float32Val
deriving DecidableEq

/-- The type `fyne.Size`. -/
structure Size where
  Width : Float32Val
  Height : Float32Val
deriving DecidableEq

/-- The interface `fynedesk.AppData`: an application handle.  Two handles are `==` in Go when
they are the same handle, which the identifier stands for. -/
structure AppData where
  id : ℕ
deriving DecidableEq

/-- The type `fynedesk.Screen`, with the value of its `CanvasScale()`. -/
structure Screen where
  Name : String
  Width : ℤ
  Height : ℤ
  CanvasScale : ℚ
deriving DecidableEq

/-- The interface `fynedesk.ScreenList`: the values of `Screens()`, `Active()` and
`Primary()`. -/
structure ScreenList where
  Screens : List Screen
  Active : Screen
  Primary : Screen
deriving DecidableEq

/-- The type `fynedesk.Shortcut`. -/
structure Shortcut where
  Name : String
  KeyName : String
  Modifier : ℕ
deriving DecidableEq

/-- The type `fynedesk.ModuleMetadata`: the name of a module and what its factory
builds; `Shortcuts` is `some` when the instances are `KeyBindModule`s. -/
structure ModuleMetadata where
  Name : String
  Shortcuts : Option (List Shortcut)
deriving DecidableEq

/-- A module instance (`fynedesk.Module`).  `id` is the identity of the
instance: the number of instances the factories had built before it. -/
structure Module where
  Name : String
  id : ℕ
  Shortcuts : Option (List Shortcut)
deriving DecidableEq

/-- The values read from `fynedesk.DeskSettings`. -/
structure DeskSettings where
  Background : String
  LauncherIconSize : ℤ
  LauncherZoomScale : ℚ
  LauncherDisableZoom : Bool
  ModuleNames : List String
deriving DecidableEq

/-- The `*bar` the desktop holds: its geometry and the fields `desk.go` writes. -/
structure bar where
  position : Position
  size : Size
  minSize : Size
  iconSize : ℚ
  iconScale : ℚ
  disableZoom : Bool
deriving DecidableEq

/-- The `*widgetPanel` the desktop holds. -/
structure widgetPanel where
  position : Position
  size : Size
  minSize : Size
deriving DecidableEq

/-- The `*background` object of the root content. -/
structure background where
  size : Size
deriving DecidableEq

/-- The objects of the root container.  The bar, the widget panel and the
mouse are the desktop's own pointers, so only the background carries data. -/
inductive CanvasObject where
  | background (bg : background)
  | bar
  | widgets
  | mouse
deriving DecidableEq

/-- The root `fyne.Window`: its size and the objects of its content
(`none`: no content set). -/
structure Window where
  size : Size
  content : Option (List CanvasObject)
deriving DecidableEq

/-- A call made by the controller to one of its collaborators. -/
inductive Call where
  | saveRecents (recent : List AppData)
  | NewInstance (inst : Module)
  | Destroy (mod : Module)
  | AddShortcut (sh : Shortcut)
  | updateBackground (path : String)
  | reloadModules (mods : List Module)
  | barUpdateIcons (b : bar)
  | barUpdateIconOrder (b : bar)
  | barUpdateTaskbar (b : bar)
  | barMouseIn (absolutePosition : Position) (position : Position)
  | barMouseOut
  | barRefresh (b : bar)
  | widgetsRefresh (w : widgetPanel)
deriving DecidableEq

/-- What `desk.go` uses of its package and of `fynedesk` without defining it. -/
structure Env where
  AvailableModules : List ModuleMetadata
  isModuleEnabled : String → DeskSettings → Bool

/-- The `desktop` struct (desk.go, lines 23 to 40), without the fields the
methods below do not read (`app`, `wm`, `icons`, `run`, `showMenu`, `mouse`).
Two fields are bookkeeping of the embedding: `allocated` counts the module
instances built so far and `calls` lists the calls made to collaborators,
oldest first. -/
structure desktop where
  recent : List AppData
  screens : ScreenList
  settings : DeskSettings
  moduleCache : Slice Module
  bar : Option bar
  widgets : Option widgetPanel
  root : Option Window
  allocated : ℕ
  calls : List Call

/-! ## Scale variables -/

/-- The loop of `qtScreenScales`: `i` is the index of the next screen and
`screenScales` the string built so far. -/
def qtScreenScalesLoop : List Screen → ℕ → String → String
  | [], _, screenScales => screenScales
  | screen :: rest, i, screenScales =>
    let screenScales := if i > 0 then screenScales ++ ";" else screenScales
    let positiveScale := max 1 screen.CanvasScale
    qtScreenScalesLoop rest (i + 1)
      (screenScales ++ (screen.Name ++ "=" ++ FormatFloat1 positiveScale))

/-- Method `desktop.qtScreenScales` (desk.go, lines 184 to 195). -/
def desktop.qtScreenScales (l : desktop) : String :=
  qtScreenScalesLoop l.screens.Screens 0 ""

/-- Method `desktop.scaleVars` (desk.go, lines 197 to 205). -/
def desktop.scaleVars (l : desktop) (scale : Float32Val) : List String :=
  let intScale := roundToInt scale
  [ "QT_SCREEN_SCALE_FACTORS=" ++ l.qtScreenScales,
    "GDK_SCALE=" ++ Itoa intScale,
    "ELM_SCALE=" ++ FormatFloat32 scale ]

/-! ## Launching applications -/

/-- The duplicate scan of `RunApp`, from index `i`: the first `recent[i] == app`
is cut out of the list and the scan stops. -/
def removeRecent (app : AppData) (recent : List AppData) (i : ℕ) : List AppData :=
  if h : i < recent.length then
    if recent[i] = app then
      if i = recent.length - 1 then recent.take i
      else recent.take i ++ recent.drop (i + 1)
    else removeRecent app recent (i + 1)
  else recent
termination_by recent.length - i

/-- Method `desktop.RunApp` (desk.go, lines 104 to 128).  `Run app vars` is the
result of `app.Run(vars)`, `none` being the nil error.  Returns the error and
the desktop after the call. -/
def desktop.RunApp {ε : Type} (Run : AppData → List String → Option ε)
    (l : desktop) (app : AppData) : Option ε × desktop :=
  let vars := l.scaleVars (Float32Val.finite l.screens.Active.CanvasScale)
  let err := Run app vars
  match err with
  | none =>
    let recent := app :: l.recent
    let recent := removeRecent app recent 1
    let recent := if recent.length > 5 then recent.take 5 else recent
    (err, { l with recent := recent, calls := l.calls ++ [Call.saveRecents recent] })
  | some _ => (err, l)

/-! ## Module cache -/

/-- Modelled from the spec: the module factories are not in `desk.go`.  The
call `meta.NewInstance()` returns a newly built instance, distinct from every
instance built before it; the call is recorded. -/
def ModuleMetadata.NewInstance (md : ModuleMetadata) (l : desktop) : Module × desktop :=
  let inst : Module := { Name := md.Name, id := l.allocated, Shortcuts := md.Shortcuts }
  (inst, { l with allocated := l.allocated + 1, calls := l.calls ++ [Call.NewInstance inst] })

/-- The call `l.AddShortcut(sh, f)`, of the embedded `wm.ShortcutHandler`. -/
def desktop.AddShortcut (l : desktop) (sh : Shortcut) : desktop :=
  { l with calls := l.calls ++ [Call.AddShortcut sh] }

/-- The call `mod.Destroy()`. -/
def Module.Destroy (mod : Module) (l : desktop) : desktop :=
  { l with calls := l.calls ++ [Call.Destroy mod] }

/-- Method `desktop.clearModuleCache` (desk.go, lines 151 to 157). -/
def desktop.clearModuleCache (l : desktop) : desktop :=
  let l := l.moduleCache.elems.foldl (fun l mod => mod.Destroy l) l
  { l with moduleCache := none }

/-- The loop of `Modules` over `fynedesk.AvailableModules()`, with the value
of `mods` so far. -/
def modulesLoop (env : Env) : List ModuleMetadata → Slice Module → desktop →
    Slice Module × desktop
  | [], mods, l => (mods, l)
  | md :: rest, mods, l =>
    if !env.isModuleEnabled md.Name l.settings then
      modulesLoop env rest mods l
    else
      let (inst, l) := md.NewInstance l
      let mods := mods.append inst
      let l := match inst.Shortcuts with
        | some shortcuts => shortcuts.foldl desktop.AddShortcut l
        | none => l
      modulesLoop env rest mods l

/-- Method `desktop.Modules` (desk.go, lines 159 to 182): the returned slice
and the desktop after the call. -/
def desktop.Modules (env : Env) (l : desktop) : Slice Module × desktop :=
  match l.moduleCache with
  | some cache => (some cache, l)
  | none =>
    let (mods, l) := modulesLoop env env.AvailableModules none l
    (mods, { l with moduleCache := mods })

/-! ## Pointer notifications -/

/-- Method `desktop.MouseInNotify` (desk.go, lines 208 to 220). -/
def desktop.MouseInNotify (l : desktop) (pos : Position) : desktop :=
  match l.bar with
  | none => l
  | some b =>
    let mouseX := pos.X
    let mouseY := pos.Y
    let barX := b.position.X
    let barY := b.position.Y
    let barWidth := b.size.Width
    let barHeight := b.size.Height
    if mouseX.ge barX && mouseX.le (barX.add barWidth) then
      if mouseY.ge barY && mouseY.le (barY.add barHeight) then
        { l with calls := l.calls ++ [Call.barMouseIn pos pos] }
      else l
    else l

/-- Method `desktop.MouseOutNotify` (desk.go, lines 223 to 228). -/
def desktop.MouseOutNotify (l : desktop) : desktop :=
  match l.bar with
  | none => l
  | some _ => { l with calls := l.calls ++ [Call.barMouseOut] }

/-! ## Layout of the root content -/

/-- Method `desktop.Layout` (desk.go, lines 42 to 55): the objects and the
desktop after the call; `none` when `objects[0]` is not a background or the bar
or the widget panel is nil. -/
def desktop.Layout (l : desktop) (objects : List CanvasObject) (size : Size) :
    Option (List CanvasObject × desktop) :=
  match objects with
  | CanvasObject.background bg :: others =>
    let bg := { bg with size := size }
    match l.bar with
    | none => none
    | some b =>
      let barHeight := b.minSize.Height
      let b := { b with
        size := { Width := size.Width, Height := barHeight.add (Float32Val.finite 1) } }
      let b := { b with
        position := { X := Float32Val.finite 0, Y := size.Height.sub barHeight } }
      let l := { l with bar := some b, calls := l.calls ++ [Call.barRefresh b] }
      match l.widgets with
      | none => none
      | some w =>
        let widgetsWidth := w.minSize.Width
        let w := { w with size := { Width := widgetsWidth, Height := size.Height } }
        let w := { w with
          position := { X := size.Width.sub widgetsWidth, Y := Float32Val.finite 0 } }
        let l := { l with widgets := some w, calls := l.calls ++ [Call.widgetsRefresh w] }
        some (CanvasObject.background bg :: others, l)
  | _ => none

/-! ## Reaction to settings changes -/

/-- Method `desktop.updateBackgrounds` (desk.go, lines 65 to 67); `none` when
there is no root window or its content does not start with a background. -/
def desktop.updateBackgrounds (l : desktop) (path : String) : Option desktop :=
  match l.root with
  | none => none
  | some win =>
    match win.content with
    | some (CanvasObject.background _ :: _) =>
      some { l with calls := l.calls ++ [Call.updateBackground path] }
    | _ => none

/-- One iteration of the loop of `desktop.startSettingsChangeListener` (desk.go,
lines 230 to 244), for the value `s` received from the channel; `none` when
the root, the widget panel or the bar is missing.  `l.settings` holds what the
live settings store returns when the event is handled. -/
def desktop.startSettingsChangeListener (env : Env) (l : desktop) (s : DeskSettings) :
    Option desktop :=
  let l := l.clearModuleCache
  match l.updateBackgrounds s.Background with
  | none => none
  | some l =>
    let (mods, l) := l.Modules env
    match l.widgets with
    | none => none
    | some _ =>
      let l := { l with calls := l.calls ++ [Call.reloadModules mods.elems] }
      match l.bar with
      | none => none
      | some b =>
        let b := { b with iconSize := (l.settings.LauncherIconSize : ℚ) }
        let b := { b with iconScale := l.settings.LauncherZoomScale }
        let b := { b with disableZoom := l.settings.LauncherDisableZoom }
        let l := { l with bar := some b, calls := l.calls ++ [Call.barUpdateIcons b] }
        let l := { l with calls := l.calls ++ [Call.barUpdateIconOrder b] }
        let l := { l with calls := l.calls ++ [Call.barUpdateTaskbar b] }
        some l

/-! ## Sequences of launches -/

/-- A sequence of `RunApp` calls, each with the behaviour of `app.Run` at that
call: the errors returned, in call order, and the desktop after the last. -/
def desktop.RunApps {ε : Type} (l : desktop) :
    List ((AppData → List String → Option ε) × AppData) → List (Option ε) × desktop
  | [] => ([], l)
  | (Run, app) :: rest =>
    let (err, l) := l.RunApp Run app
    let (errs, l) := l.RunApps rest
    (err :: errs, l)

/-! ## Definitions used to state the properties -/

/-- The recent list is short and free of repetitions. -/
def recentInvariant (recent : List AppData) : Prop :=
  recent.length ≤ 5 ∧ recent.Nodup

/-- A desktop with no bar, no root and one screen, used to run the methods on. -/
def sampleDesktop : desktop :=
  { recent := []
    screens :=
      { Screens := [{ Name := "A", Width := 1920, Height := 1080, CanvasScale := 1 }]
        Active := { Name := "A", Width := 1920, Height := 1080, CanvasScale := 1 }
        Primary := { Name := "A", Width := 1920, Height := 1080, CanvasScale := 1 } }
    settings :=
      { Background := "", LauncherIconSize := 32, LauncherZoomScale := 2,
        LauncherDisableZoom := false, ModuleNames := [] }
    moduleCache := none
    bar := none
    widgets := none
    root := none
    allocated := 0
    calls := [] }

/-- An `app.Run` that starts every application. -/
def runOk : AppData → List String → Option String := fun _ _ => none

/-- An `app.Run` that fails to start any application. -/
def runFails : AppData → List String → Option String := fun _ _ => some "exec: not found"

/-- The available modules that are enabled in `settings`, in registry order. -/
def enabledModules (env : Env) (settings : DeskSettings) : List ModuleMetadata :=
  env.AvailableModules.filter (fun md => env.isModuleEnabled md.Name settings)

/-- One new instance per entry of `mds`, in order, when `start` instances were
built before. -/
def freshInstances : List ModuleMetadata → ℕ → List Module
  | [], _ => []
  | md :: rest, start =>
    { Name := md.Name, id := start, Shortcuts := md.Shortcuts } ::
      freshInstances rest (start + 1)

/-- The calls made for one instantiated module: the factory call that built
it, then one `AddShortcut` per shortcut of a key-binding module. -/
def instanceCalls (inst : Module) : List Call :=
  Call.NewInstance inst ::
    (match inst.Shortcuts with
     | some shortcuts => shortcuts.map Call.AddShortcut
     | none => [])

/-- Whether `c` is a call of a module factory. -/
def Call.isNewInstance : Call → Bool
  | Call.NewInstance _ => true
  | _ => false

/-- The entries joined by `;`, with no separator before the first or after the
last; the empty string for no entry. -/
def joinEntries : List String → String
  | [] => ""
  | [e] => e
  | e :: e' :: rest => e ++ ";" ++ joinEntries (e' :: rest)

/-- The entry of one screen in the per-screen scale string: `<name>=<scale>`
with the scale at least 1 and one decimal digit. -/
def screenEntry (screen : Screen) : String :=
  screen.Name ++ "=" ++ FormatFloat1 (max 1 screen.CanvasScale)

/-- Every entry preceded by a `;`. -/
def separatedEntries : List String → String
  | [] => ""
  | e :: rest => ";" ++ e ++ separatedEntries rest

/-- The bar has been built and `pos` lies within the four bounds the code
compares with, the bounds included: the position of the bar and the `float32`
sums of its position and size. -/
def desktop.pointerInBar (l : desktop) (pos : Position) : Prop :=
  ∃ b, l.bar = some b ∧
    b.position.X.le pos.X = true ∧
    pos.X.le (b.position.X.add b.size.Width) = true ∧
    b.position.Y.le pos.Y = true ∧
    pos.Y.le (b.position.Y.add b.size.Height) = true

/-- The bar has been built and `pos` lies in the rectangle of the bar, edges
included, the far edges being the exact sums of position and size. -/
def desktop.pointerInBarExact (l : desktop) (pos : Position) : Prop :=
  ∃ b barX barY barWidth barHeight mouseX mouseY,
    l.bar = some b ∧
    b.position.X.toRat? = some barX ∧ b.position.Y.toRat? = some barY ∧
    b.size.Width.toRat? = some barWidth ∧ b.size.Height.toRat? = some barHeight ∧
    pos.X.toRat? = some mouseX ∧ pos.Y.toRat? = some mouseY ∧
    barX ≤ mouseX ∧ mouseX ≤ barX + barWidth ∧
    barY ≤ mouseY ∧ mouseY ≤ barY + barHeight

/-- The corner opposite to the position of a rectangle with finite position
and size: position plus size, exactly. -/
def farCorner (position : Position) (size : Size) : Option (ℚ × ℚ) :=
  match position.X.toRat?, position.Y.toRat?, size.Width.toRat?, size.Height.toRat? with
  | some x, some y, some width, some height => some (x + width, y + height)
  | _, _, _, _ => none

/-- The value `x` is a `float32`: rounding leaves it unchanged. -/
def isFloat32 (x : ℚ) : Prop := round32 x = Float32Val.finite x

/-- Every cached module is one of the instances built so far. -/
def desktop.cacheAllocated (l : desktop) : Prop :=
  ∀ m ∈ l.moduleCache.elems, m.id < l.allocated

/-- A bar of minimum height 40 laid out at the bottom of a 1920 by 1080 surface. -/
def sampleBar : bar :=
  { position := { X := .finite 0, Y := .finite 1040 }
    size := { Width := .finite 1920, Height := .finite 41 }
    minSize := { Width := .finite 300, Height := .finite 40 }
    iconSize := 32
    iconScale := 2
    disableZoom := false }

/-- A bar at `(0, 0.1)` of size `(1, 0.2)`, these being the `float32` values
nearest to 0.1 and 0.2. -/
def thinBar : bar :=
  { sampleBar with
    position := { X := .finite 0, Y := .finite (13421773 / 134217728) }
    size := { Width := .finite 1, Height := .finite (13421773 / 67108864) } }

/-- A widget panel of minimum width 200 that has not been laid out. -/
def samplePanel : widgetPanel :=
  { position := { X := .finite 0, Y := .finite 0 }
    size := { Width := .finite 0, Height := .finite 0 }
    minSize := { Width := .finite 200, Height := .finite 100 } }

/-- A registry of three modules; the first binds one shortcut. -/
def sampleEnv : Env :=
  { AvailableModules :=
      [{ Name := "Launcher",
         Shortcuts := some [{ Name := "Open Launcher", KeyName := "Space", Modifier := 8 }] },
       { Name := "Battery", Shortcuts := none },
       { Name := "Brightness", Shortcuts := none }]
    isModuleEnabled := fun name settings => settings.ModuleNames.contains name }

/-- The second module instance ever built, a `Launcher`. -/
def launcherInstance : Module :=
  { Name := "Launcher"
    id := 1
    Shortcuts := some [{ Name := "Open Launcher", KeyName := "Space", Modifier := 8 }] }

/-- A desktop whose root is built, with one cached module and the modules
`Launcher` and `Brightness` enabled. -/
def builtDesktop : desktop :=
  { sampleDesktop with
    settings :=
      { Background := "wall.png", LauncherIconSize := 48, LauncherZoomScale := 3 / 2,
        LauncherDisableZoom := true, ModuleNames := ["Brightness", "Launcher"] }
    moduleCache := some [{ Name := "Battery", id := 0, Shortcuts := none }]
    bar := some sampleBar
    widgets := some samplePanel
    root := some
      { size := { Width := .finite 1920, Height := .finite 1080 }
        content := some
          [CanvasObject.background { size := { Width := .finite 0, Height := .finite 0 } },
           CanvasObject.bar, CanvasObject.widgets, CanvasObject.mouse] }
    allocated := 1 }

/-! ## Recent applications: proofs -/

theorem removeRecent_eq (app : AppData) (recent : List AppData) (i : ℕ) :
    removeRecent app recent i = recent.take i ++ (recent.drop i).erase app := by
  induction i using Nat.strongRecMeasure (fun i => recent.length - i) with
  | ind i ih =>
    rw [removeRecent]
    by_cases hi : i < recent.length
    · have hdrop : recent.drop i = recent[i] :: recent.drop (i + 1) :=
        List.drop_eq_getElem_cons hi
      by_cases heq : recent[i] = app
      · have herase : (recent.drop i).erase app = recent.drop (i + 1) := by
          rw [hdrop, heq, List.erase_cons_head]
        by_cases hlast : i = recent.length - 1
        · have hnil : recent.drop (i + 1) = [] := List.drop_eq_nil_of_le (by omega)
          simp [hi, heq, hlast.symm, herase, hnil]
        · simp [hi, heq, hlast, herase]
      · have herase : (recent.drop i).erase app = recent[i] :: (recent.drop (i + 1)).erase app := by
          rw [hdrop, List.erase_cons_tail (by simpa using heq)]
        rw [dif_pos hi, if_neg heq, ih (i + 1) (by omega), herase, List.take_succ,
          List.getElem?_eq_getElem hi]
        simp only [Option.toList, List.append_assoc, List.singleton_append]
    · have hle : recent.length ≤ i := Nat.le_of_not_lt hi
      simp [hi, List.take_of_length_le hle, List.drop_eq_nil_of_le hle]

theorem RunApp_recent_of_success {ε : Type} (Run : AppData → List String → Option ε)
    (l : desktop) (app : AppData)
    (h : Run app (l.scaleVars (Float32Val.finite l.screens.Active.CanvasScale)) = none) :
    (l.RunApp Run app).2.recent = (app :: l.recent.erase app).take 5 := by
  simp only [desktop.RunApp, h, removeRecent_eq]
  simp only [List.take_succ_cons, List.take_zero, List.drop_succ_cons, List.drop_zero,
    List.singleton_append]
  split_ifs with hlen
  · rfl
  · exact (List.take_of_length_le (Nat.le_of_not_lt hlen)).symm

theorem erase_eq_eraseIdx_first (a : AppData) :
    ∀ (xs : List AppData) (k : ℕ), xs[k]? = some a → (∀ j, j < k → xs[j]? ≠ some a) →
      xs.erase a = xs.eraseIdx k
  | [], k, h, _ => by simp at h
  | x :: xs, 0, h, _ => by
    have hx : x = a := by simpa using h
    simp [hx]
  | x :: xs, k + 1, h, hfirst => by
    have hx : x ≠ a := by
      intro hxa
      exact hfirst 0 (Nat.succ_pos k) (by simp [hxa])
    have htail : xs.erase a = xs.eraseIdx k :=
      erase_eq_eraseIdx_first a xs k (by simpa using h) (fun j hj => by
        have := hfirst (j + 1) (Nat.succ_lt_succ hj)
        simpa using this)
    rw [List.erase_cons_tail (by simpa using hx), htail, List.eraseIdx_cons_succ]

theorem RunApp_fst {ε : Type} (Run : AppData → List String → Option ε)
    (l : desktop) (app : AppData) :
    (l.RunApp Run app).1 = Run app (l.scaleVars (Float32Val.finite l.screens.Active.CanvasScale)) := by
  cases h : Run app (l.scaleVars (Float32Val.finite l.screens.Active.CanvasScale)) <;>
    simp only [desktop.RunApp, h]

theorem RunApp_screens {ε : Type} (Run : AppData → List String → Option ε)
    (l : desktop) (app : AppData) : (l.RunApp Run app).2.screens = l.screens := by
  cases h : Run app (l.scaleVars (Float32Val.finite l.screens.Active.CanvasScale)) <;>
    simp only [desktop.RunApp, h]

theorem recentInvariant_push (app : AppData) (recent : List AppData)
    (h : recent.Nodup) : recentInvariant ((app :: recent.erase app).take 5) := by
  refine ⟨by simp [List.length_take], ?_⟩
  have hno : (app :: recent.erase app).Nodup :=
    List.nodup_cons.mpr ⟨h.not_mem_erase, h.erase app⟩
  exact hno.sublist (List.take_sublist 5 _)

theorem RunApp_recentInvariant {ε : Type} (Run : AppData → List String → Option ε)
    (l : desktop) (app : AppData) (h : recentInvariant l.recent) :
    recentInvariant (l.RunApp Run app).2.recent := by
  cases hrun : Run app (l.scaleVars (Float32Val.finite l.screens.Active.CanvasScale)) with
  | none =>
    rw [RunApp_recent_of_success Run l app hrun]
    exact recentInvariant_push app l.recent h.2
  | some e =>
    simp only [desktop.RunApp, hrun]
    exact h

theorem RunApps_recentInvariant {ε : Type} :
    ∀ (calls : List ((AppData → List String → Option ε) × AppData)) (l : desktop),
      recentInvariant l.recent → recentInvariant (l.RunApps calls).2.recent
  | [], _, h => h
  | (Run, app) :: rest, l, h => by
    simp only [desktop.RunApps]
    exact RunApps_recentInvariant rest _ (RunApp_recentInvariant Run l app h)

/-- C1: starting from an empty recent list, after any sequence of `RunApp`
calls (any apps, any order, repeats allowed; in particular when every launch
succeeds) the recent list has at most 5 entries and contains no app twice. -/
theorem RunApps_recent_bounded_nodup {ε : Type}
    (calls : List ((AppData → List String → Option ε) × AppData)) (l : desktop)
    (hempty : l.recent = []) :
    (l.RunApps calls).2.recent.length ≤ 5 ∧ (l.RunApps calls).2.recent.Nodup :=
  RunApps_recentInvariant calls l (by simp [recentInvariant, hempty])

/-- Seven successful launches (six apps, the third launched again): every call
returns a nil error and the list ends as the five most recent distinct apps. -/
theorem RunApps_recent_bounded_nodup_witness :
    sampleDesktop.RunApps
        [(runOk, ⟨1⟩), (runOk, ⟨2⟩), (runOk, ⟨3⟩), (runOk, ⟨4⟩), (runOk, ⟨5⟩),
         (runOk, ⟨6⟩), (runOk, ⟨3⟩)] =
      ([none, none, none, none, none, none, none],
        { sampleDesktop with
          recent := [⟨3⟩, ⟨6⟩, ⟨5⟩, ⟨4⟩, ⟨2⟩]
          calls :=
            [Call.saveRecents [⟨1⟩],
             Call.saveRecents [⟨2⟩, ⟨1⟩],
             Call.saveRecents [⟨3⟩, ⟨2⟩, ⟨1⟩],
             Call.saveRecents [⟨4⟩, ⟨3⟩, ⟨2⟩, ⟨1⟩],
             Call.saveRecents [⟨5⟩, ⟨4⟩, ⟨3⟩, ⟨2⟩, ⟨1⟩],
             Call.saveRecents [⟨6⟩, ⟨5⟩, ⟨4⟩, ⟨3⟩, ⟨2⟩],
             Call.saveRecents [⟨3⟩, ⟨6⟩, ⟨5⟩, ⟨4⟩, ⟨2⟩]] }) ∧
    (sampleDesktop.RunApps
        [(runOk, ⟨1⟩), (runOk, ⟨2⟩), (runOk, ⟨3⟩), (runOk, ⟨4⟩), (runOk, ⟨5⟩),
         (runOk, ⟨6⟩), (runOk, ⟨3⟩)]).2.recent.length ≤ 5 ∧
    (sampleDesktop.RunApps
        [(runOk, ⟨1⟩), (runOk, ⟨2⟩), (runOk, ⟨3⟩), (runOk, ⟨4⟩), (runOk, ⟨5⟩),
         (runOk, ⟨6⟩), (runOk, ⟨3⟩)]).2.recent.Nodup :=
  ⟨by simp [desktop.RunApps, desktop.RunApp, runOk, sampleDesktop, removeRecent],
   RunApps_recent_bounded_nodup _ sampleDesktop rfl⟩

/-- C2: when the launch succeeds, `RunApp` returns a nil error and leaves the
recent list equal to the app followed by the old list without its first
occurrence of the app, cut to 5 entries.  So an app whose first occurrence was
at position `k > 0` of a list of at most 5 entries ends at position 0, the
entry at `k` is gone and the others keep their order; and a new app launched
into a list of 5 entries drops exactly the last one. -/
theorem RunApp_moves_to_front {ε : Type} (Run : AppData → List String → Option ε)
    (l : desktop) (app : AppData)
    (hrun : Run app (l.scaleVars (Float32Val.finite l.screens.Active.CanvasScale)) = none) :
    (l.RunApp Run app).1 = none ∧
    (l.RunApp Run app).2.recent = (app :: l.recent.erase app).take 5 ∧
    (∀ k, 0 < k → l.recent[k]? = some app → (∀ j, j < k → l.recent[j]? ≠ some app) →
      l.recent.length ≤ 5 → (l.RunApp Run app).2.recent = app :: l.recent.eraseIdx k) ∧
    (app ∉ l.recent → l.recent.length = 5 →
      (l.RunApp Run app).2.recent = app :: l.recent.dropLast) := by
  have hrecent := RunApp_recent_of_success Run l app hrun
  refine ⟨by rw [RunApp_fst, hrun], hrecent, ?_, ?_⟩
  · intro k _ hk hfirst hlen
    have hkl : k < l.recent.length := by
      rcases Nat.lt_or_ge k l.recent.length with h | h
      · exact h
      · rw [List.getElem?_eq_none h] at hk
        exact absurd hk (by simp)
    rw [hrecent, erase_eq_eraseIdx_first app l.recent k hk hfirst]
    apply List.take_of_length_le
    rw [List.length_cons, List.length_eraseIdx, if_pos hkl]
    omega
  · intro hnew hlen
    rw [hrecent, List.erase_of_not_mem hnew, List.dropLast_eq_take, hlen]
    rfl

/-- Launching app 3 into `[1, 2, 3, 4]` gives `[3, 1, 2, 4]`; launching the new
app 9 into `[1, 2, 3, 4, 5]` gives `[9, 1, 2, 3, 4]`. -/
theorem RunApp_moves_to_front_witness :
    ({ sampleDesktop with recent := [⟨1⟩, ⟨2⟩, ⟨3⟩, ⟨4⟩] }.RunApp runOk ⟨3⟩).2.recent
      = [⟨3⟩, ⟨1⟩, ⟨2⟩, ⟨4⟩] ∧
    ({ sampleDesktop with recent := [⟨1⟩, ⟨2⟩, ⟨3⟩, ⟨4⟩, ⟨5⟩] }.RunApp runOk ⟨9⟩).2.recent
      = [⟨9⟩, ⟨1⟩, ⟨2⟩, ⟨3⟩, ⟨4⟩] :=
  ⟨(RunApp_moves_to_front runOk { sampleDesktop with recent := [⟨1⟩, ⟨2⟩, ⟨3⟩, ⟨4⟩] } ⟨3⟩
      rfl).2.2.1 2 (by decide) (by decide) (by decide) (by decide),
   (RunApp_moves_to_front runOk
      { sampleDesktop with recent := [⟨1⟩, ⟨2⟩, ⟨3⟩, ⟨4⟩, ⟨5⟩] } ⟨9⟩
      rfl).2.2.2 (by decide) rfl⟩

/-- C3: when the launch fails, `RunApp` returns the error of `app.Run`
unchanged and the desktop, its recent list included, is what it was before the
call (nothing is saved either). -/
theorem RunApp_failure_unchanged {ε : Type} (Run : AppData → List String → Option ε)
    (l : desktop) (app : AppData) (e : ε)
    (hrun : Run app (l.scaleVars (Float32Val.finite l.screens.Active.CanvasScale)) = some e) :
    (l.RunApp Run app).1 = some e ∧ (l.RunApp Run app).2.recent = l.recent ∧
      (l.RunApp Run app).2 = l := by
  simp only [desktop.RunApp, hrun, and_self]

/-- A failed launch of app 9 with `[1, 2]` recent. -/
theorem RunApp_failure_unchanged_witness :
    ({ sampleDesktop with recent := [⟨1⟩, ⟨2⟩] }.RunApp runFails ⟨9⟩).1
        = some "exec: not found" ∧
    ({ sampleDesktop with recent := [⟨1⟩, ⟨2⟩] }.RunApp runFails ⟨9⟩).2.recent
        = [⟨1⟩, ⟨2⟩] :=
  have h := RunApp_failure_unchanged runFails { sampleDesktop with recent := [⟨1⟩, ⟨2⟩] } ⟨9⟩
    "exec: not found" rfl
  ⟨h.1, h.2.1⟩

/-! ## Module cache: proofs -/

theorem foldl_Destroy (mods : List Module) :
    ∀ l : desktop, mods.foldl (fun l mod => mod.Destroy l) l =
      { l with calls := l.calls ++ mods.map Call.Destroy } := by
  induction mods with
  | nil => intro l; simp
  | cons m rest ih =>
    intro l
    rw [List.foldl_cons, ih]
    simp [Module.Destroy]

theorem clearModuleCache_eq (l : desktop) :
    l.clearModuleCache =
      { l with moduleCache := none
               calls := l.calls ++ l.moduleCache.elems.map Call.Destroy } := by
  simp [desktop.clearModuleCache, foldl_Destroy]

theorem foldl_AddShortcut (shortcuts : List Shortcut) :
    ∀ l : desktop, shortcuts.foldl desktop.AddShortcut l =
      { l with calls := l.calls ++ shortcuts.map Call.AddShortcut } := by
  induction shortcuts with
  | nil => intro l; simp
  | cons sh rest ih => intro l; simp [ih, desktop.AddShortcut]

theorem modulesLoop_eq (env : Env) (mds : List ModuleMetadata) :
    ∀ (mods : Slice Module) (l : desktop),
      modulesLoop env mds mods l =
        (if freshInstances (mds.filter (fun md => env.isModuleEnabled md.Name l.settings))
              l.allocated = [] then mods
         else some (mods.elems ++
            freshInstances (mds.filter (fun md => env.isModuleEnabled md.Name l.settings))
              l.allocated),
         { l with
           allocated := l.allocated +
            (freshInstances (mds.filter (fun md => env.isModuleEnabled md.Name l.settings))
              l.allocated).length
           calls := l.calls ++
            ((freshInstances (mds.filter (fun md => env.isModuleEnabled md.Name l.settings))
              l.allocated).map instanceCalls).flatten }) := by
  induction mds with
  | nil => intro mods l; simp [modulesLoop, freshInstances]
  | cons md rest ih =>
    intro mods l
    by_cases hen : env.isModuleEnabled md.Name l.settings = true
    · cases hsh : md.Shortcuts with
      | none =>
        simp [modulesLoop, hen, ModuleMetadata.NewInstance, hsh, ih, freshInstances,
          instanceCalls, Slice.append, Slice.elems, Nat.add_assoc, Nat.add_comm 1]
      | some shortcuts =>
        simp [modulesLoop, hen, ModuleMetadata.NewInstance, hsh, ih, freshInstances,
          instanceCalls, Slice.append, Slice.elems, foldl_AddShortcut, Nat.add_assoc,
          Nat.add_comm 1]
    · simp [modulesLoop, hen, ih]

theorem Modules_of_cached (env : Env) (l : desktop) (cache : List Module)
    (h : l.moduleCache = some cache) : l.Modules env = (some cache, l) := by
  simp [desktop.Modules, h]

theorem Modules_of_nil (env : Env) (l : desktop) (h : l.moduleCache = none) :
    l.Modules env =
      (if freshInstances (enabledModules env l.settings) l.allocated = [] then none
       else some (freshInstances (enabledModules env l.settings) l.allocated),
       { l with
         moduleCache :=
          if freshInstances (enabledModules env l.settings) l.allocated = [] then none
          else some (freshInstances (enabledModules env l.settings) l.allocated)
         allocated := l.allocated +
          (freshInstances (enabledModules env l.settings) l.allocated).length
         calls := l.calls ++
          ((freshInstances (enabledModules env l.settings) l.allocated).map
            instanceCalls).flatten }) := by
  simp [desktop.Modules, h, modulesLoop_eq, enabledModules, Slice.elems]

theorem Modules_twice (env : Env) (l : desktop) :
    (l.Modules env).2.Modules env = ((l.Modules env).1, (l.Modules env).2) := by
  cases hc : l.moduleCache with
  | some cache =>
    rw [Modules_of_cached env l cache hc]
    exact Modules_of_cached env l cache hc
  | none =>
    by_cases hins : freshInstances (enabledModules env l.settings) l.allocated = []
    · have hl : l.Modules env = (none, l) := by
        rw [Modules_of_nil env l hc]
        simp [hins, ← hc]
      rw [hl]
      exact hl
    · rw [Modules_of_nil env l hc]
      simp only [hins, if_false]
      exact Modules_of_cached env _ _ rfl

theorem freshInstances_names (mds : List ModuleMetadata) :
    ∀ start, (freshInstances mds start).map Module.Name = mds.map ModuleMetadata.Name := by
  induction mds with
  | nil => intro start; rfl
  | cons md rest ih => intro start; simp [freshInstances, ih]

theorem freshInstances_length (mds : List ModuleMetadata) :
    ∀ start, (freshInstances mds start).length = mds.length := by
  induction mds with
  | nil => intro start; rfl
  | cons md rest ih => intro start; simp [freshInstances, ih]

theorem freshInstances_id_ge (mds : List ModuleMetadata) :
    ∀ start, ∀ m ∈ freshInstances mds start, start ≤ m.id := by
  induction mds with
  | nil => intro start m hm; simp [freshInstances] at hm
  | cons md rest ih =>
    intro start m hm
    simp only [freshInstances, List.mem_cons] at hm
    rcases hm with rfl | hm
    · exact Nat.le_refl _
    · exact Nat.le_of_succ_le (ih (start + 1) m hm)

theorem flatten_instanceCalls_newInstances (insts : List Module) :
    ((insts.map instanceCalls).flatten.filter Call.isNewInstance) =
      insts.map Call.NewInstance := by
  induction insts with
  | nil => rfl
  | cons m rest ih =>
    have hsh : ∀ shortcuts : List Shortcut,
        (shortcuts.map Call.AddShortcut).filter Call.isNewInstance = [] := by
      intro shortcuts
      induction shortcuts with
      | nil => rfl
      | cons sh tl ihs => simp [Call.isNewInstance]
    cases hm : m.Shortcuts with
    | none => simp [instanceCalls, hm, Call.isNewInstance, ih]
    | some shortcuts => simp [instanceCalls, hm, Call.isNewInstance, ih, hsh]

/-- C4: a second `Modules()` call made right after a first one (same settings,
no `clearModuleCache` in between) returns the same slice, the same instances in
the same order, and leaves the desktop as the first call left it: it calls no
module factory (nothing is added to the calls, no instance is allocated).  When
no available module is enabled both calls return the nil slice and build
nothing. -/
theorem Modules_second_call_cached (env : Env) (l : desktop) :
    ((l.Modules env).2.Modules env).1 = (l.Modules env).1 ∧
    ((l.Modules env).2.Modules env).2 = (l.Modules env).2 ∧
    ((l.Modules env).2.Modules env).2.calls = (l.Modules env).2.calls ∧
    ((l.Modules env).2.Modules env).2.allocated = (l.Modules env).2.allocated ∧
    (l.moduleCache = none → enabledModules env l.settings = [] →
      (l.Modules env).1 = none ∧ ((l.Modules env).2.Modules env).1 = none ∧
      ((l.Modules env).2.Modules env).2.calls = l.calls) := by
  have h := Modules_twice env l
  refine ⟨by rw [h], by rw [h], by rw [h], by rw [h], ?_⟩
  intro hc hen
  have hl : l.Modules env = (none, l) := by
    rw [Modules_of_nil env l hc]
    simp [hen, freshInstances, ← hc]
  rw [h, hl]
  exact ⟨rfl, rfl, rfl⟩

theorem Modules_after_clear_elems (env : Env) (l : desktop) :
    (l.clearModuleCache.Modules env).1.elems =
      freshInstances (enabledModules env l.settings) l.allocated := by
  have hclear := clearModuleCache_eq l
  have hmods := Modules_of_nil env l.clearModuleCache (by rw [hclear])
  have hset : l.clearModuleCache.settings = l.settings := by rw [hclear]
  have halloc : l.clearModuleCache.allocated = l.allocated := by rw [hclear]
  rw [hset, halloc] at hmods
  rw [hmods]
  by_cases hins : freshInstances (enabledModules env l.settings) l.allocated = []
  · simp [hins, Slice.elems]
  · simp [hins, Slice.elems]

/-- C5: `clearModuleCache` calls `Destroy` once per cached module, in cache
order (each module of a cache of distinct instances exactly once), and leaves
the cache nil; the `Modules()` call that follows returns
instances built during that call (one factory call each), exactly one per
available module enabled in the current settings, in registry order. -/
theorem clearModuleCache_then_Modules (env : Env) (l : desktop) :
    l.clearModuleCache.calls = l.calls ++ l.moduleCache.elems.map Call.Destroy ∧
    (∀ m, (l.moduleCache.elems.map Call.Destroy).count (Call.Destroy m) =
      l.moduleCache.elems.count m) ∧
    (l.moduleCache.elems.Nodup → ∀ m ∈ l.moduleCache.elems,
      (l.moduleCache.elems.map Call.Destroy).count (Call.Destroy m) = 1) ∧
    l.clearModuleCache.moduleCache = none ∧
    (l.clearModuleCache.Modules env).1.elems =
      freshInstances (enabledModules env l.settings) l.allocated ∧
    (l.clearModuleCache.Modules env).1.elems.map Module.Name =
      (env.AvailableModules.filter
        (fun md => env.isModuleEnabled md.Name l.settings)).map ModuleMetadata.Name ∧
    (∃ made, (l.clearModuleCache.Modules env).2.calls = l.clearModuleCache.calls ++ made ∧
      made.filter Call.isNewInstance =
        (l.clearModuleCache.Modules env).1.elems.map Call.NewInstance) ∧
    (l.clearModuleCache.Modules env).2.moduleCache = (l.clearModuleCache.Modules env).1 := by
  have hclear := clearModuleCache_eq l
  have hmods := Modules_of_nil env l.clearModuleCache (by rw [hclear])
  have hset : l.clearModuleCache.settings = l.settings := by rw [hclear]
  have halloc : l.clearModuleCache.allocated = l.allocated := by rw [hclear]
  rw [hset, halloc] at hmods
  have helems : (l.clearModuleCache.Modules env).1.elems =
      freshInstances (enabledModules env l.settings) l.allocated := by
    rw [hmods]
    by_cases hins : freshInstances (enabledModules env l.settings) l.allocated = []
    · simp [hins, Slice.elems]
    · simp [hins, Slice.elems]
  have hcount : ∀ m, (l.moduleCache.elems.map Call.Destroy).count (Call.Destroy m) =
      l.moduleCache.elems.count m := fun m =>
    List.count_map_of_injective _ _ (fun a b hab => by injection hab) m
  refine ⟨by rw [hclear], hcount, ?_, by rw [hclear], helems, ?_, ?_, by rw [hmods]⟩
  · intro hnodup m hm
    rw [hcount, List.count_eq_one_of_mem hnodup hm]
  · rw [helems, freshInstances_names]
    rfl
  · refine ⟨((freshInstances (enabledModules env l.settings) l.allocated).map
      instanceCalls).flatten, by rw [hmods], ?_⟩
    rw [helems]
    exact flatten_instanceCalls_newInstances _

/-- With an empty cache and `Launcher` and `Brightness` enabled, the first call
builds two instances and the second returns them without building any; with
no module enabled both calls return the nil slice and make no call. -/
theorem Modules_second_call_cached_witness :
    ({ builtDesktop with moduleCache := none }.Modules sampleEnv).1 =
      some [launcherInstance, { Name := "Brightness", id := 2, Shortcuts := none }] ∧
    (({ builtDesktop with moduleCache := none }.Modules sampleEnv).2.Modules sampleEnv).1 =
      some [launcherInstance, { Name := "Brightness", id := 2, Shortcuts := none }] ∧
    (({ builtDesktop with moduleCache := none }.Modules sampleEnv).2.Modules sampleEnv).2.allocated
      = 3 ∧
    (sampleDesktop.Modules sampleEnv).1 = none ∧
    ((sampleDesktop.Modules sampleEnv).2.Modules sampleEnv).1 = none ∧
    ((sampleDesktop.Modules sampleEnv).2.Modules sampleEnv).2.calls = [] := by
  have hbuilt := Modules_second_call_cached sampleEnv { builtDesktop with moduleCache := none }
  have hnone := (Modules_second_call_cached sampleEnv sampleDesktop).2.2.2.2 rfl rfl
  have hfirst : ({ builtDesktop with moduleCache := none }.Modules sampleEnv) =
      (some [launcherInstance, { Name := "Brightness", id := 2, Shortcuts := none }],
        { builtDesktop with
          moduleCache :=
            some [launcherInstance, { Name := "Brightness", id := 2, Shortcuts := none }]
          allocated := 3
          calls := [Call.NewInstance launcherInstance,
            Call.AddShortcut { Name := "Open Launcher", KeyName := "Space", Modifier := 8 },
            Call.NewInstance { Name := "Brightness", id := 2, Shortcuts := none }] }) := by
    simp [desktop.Modules, modulesLoop, builtDesktop, sampleDesktop, sampleEnv,
      ModuleMetadata.NewInstance, desktop.AddShortcut, Slice.append, Slice.elems,
      launcherInstance]
  refine ⟨by rw [hfirst], ?_, ?_, hnone.1, hnone.2.1, hnone.2.2⟩
  · rw [hbuilt.1, hfirst]
  · rw [hbuilt.2.2.2.1, hfirst]

/-- Clearing the cache of the built sample desktop destroys its `Battery`
module once; the next `Modules()` builds `Launcher` and `Brightness`. -/
theorem clearModuleCache_then_Modules_witness :
    builtDesktop.clearModuleCache.calls =
      [Call.Destroy { Name := "Battery", id := 0, Shortcuts := none }] ∧
    builtDesktop.clearModuleCache.moduleCache = none ∧
    (builtDesktop.clearModuleCache.Modules sampleEnv).1.elems =
      [launcherInstance, { Name := "Brightness", id := 2, Shortcuts := none }] := by
  have h := clearModuleCache_then_Modules sampleEnv builtDesktop
  refine ⟨h.1.trans ?_, h.2.2.2.1, h.2.2.2.2.1.trans ?_⟩
  · simp [builtDesktop, sampleDesktop, Slice.elems]
  · simp [builtDesktop, sampleDesktop, sampleEnv, enabledModules, freshInstances,
      launcherInstance]

/-! ## Scale variables: proofs -/

theorem roundHalfEven_near (y : ℚ) (hy : 0 ≤ y) : |(roundHalfEven y : ℚ) - y| ≤ 1 / 2 := by
  have hfl : 0 ≤ ⌊y⌋ := Int.floor_nonneg.mpr hy
  have hn : ((⌊y⌋.toNat : ℕ) : ℚ) = (⌊y⌋ : ℚ) := by
    have h : ((⌊y⌋.toNat : ℕ) : ℤ) = ⌊y⌋ := Int.toNat_of_nonneg hfl
    exact_mod_cast congrArg (fun z : ℤ => (z : ℚ)) h
  have h1 := Int.floor_le y
  have h2 := Int.lt_floor_add_one y
  unfold roundHalfEven
  simp only
  split_ifs <;> push_cast <;> rw [abs_le] <;> constructor <;> linarith

theorem roundHalfEven_natCast (n : ℕ) : roundHalfEven (n : ℚ) = n := by
  simp [roundHalfEven]

theorem mathRound_near (x : ℚ) : |(mathRound x : ℚ) - x| ≤ 1 / 2 := by
  unfold mathRound
  split_ifs with h
  · have h1 := Int.floor_le (x + 1 / 2)
    have h2 := Int.lt_floor_add_one (x + 1 / 2)
    rw [abs_le]; constructor <;> linarith
  · have h1 := Int.floor_le (-x + 1 / 2)
    have h2 := Int.lt_floor_add_one (-x + 1 / 2)
    push_cast
    rw [abs_le]; constructor <;> linarith

theorem mathRound_half (k : ℤ) :
    mathRound ((k : ℚ) + 1 / 2) = if 0 ≤ k then k + 1 else k := by
  unfold mathRound
  by_cases hk : 0 ≤ k
  · have hx : (0 : ℚ) ≤ (k : ℚ) + 1 / 2 := by
      have : (0 : ℚ) ≤ k := by exact_mod_cast hk
      linarith
    rw [if_pos hx, if_pos hk]
    have hsum : (k : ℚ) + 1 / 2 + 1 / 2 = ((k + 1 : ℤ) : ℚ) := by push_cast; ring
    rw [hsum, Int.floor_intCast]
  · have hk' : k ≤ -1 := by omega
    have hx : ¬ (0 : ℚ) ≤ (k : ℚ) + 1 / 2 := by
      have : (k : ℚ) ≤ -1 := by exact_mod_cast hk'
      linarith
    rw [if_neg hx, if_neg hk]
    have hsum : -((k : ℚ) + 1 / 2) + 1 / 2 = ((-k : ℤ) : ℚ) := by push_cast; ring
    rw [hsum, Int.floor_intCast]
    simp

theorem toString_digit : ∀ d : ℕ, d < 10 → toString d = String.singleton (Nat.digitChar d) := by
  decide

/-- The shape of a formatted value: optional sign, integer part, point and
exactly one digit `d`, the tenths `10 * n + d` being nearest to `|x| * 10`. -/
theorem FormatFloat1_shape (x : ℚ) :
    ∃ n d : ℕ, d < 10 ∧ |((10 * n + d : ℕ) : ℚ) - |x| * 10| ≤ 1 / 2 ∧
      FormatFloat1 x = (if x < 0 then "-" else "") ++ toString n ++ "." ++
        String.singleton (Nat.digitChar d) := by
  refine ⟨roundHalfEven (|x| * 10) / 10, roundHalfEven (|x| * 10) % 10,
    Nat.mod_lt _ (by decide), ?_, ?_⟩
  · rw [Nat.div_add_mod]
    exact roundHalfEven_near _ (mul_nonneg (abs_nonneg x) (by norm_num))
  · unfold FormatFloat1
    simp only
    rw [toString_digit _ (Nat.mod_lt _ (by decide))]

theorem FormatFloat1_one : FormatFloat1 1 = "1.0" := by
  have h : |(1 : ℚ)| * 10 = ((10 : ℕ) : ℚ) := by norm_num
  unfold FormatFloat1
  simp only [h, roundHalfEven_natCast]
  decide

theorem FormatFloat1_three_halves : FormatFloat1 (3 / 2) = "1.5" := by
  have h : |(3 / 2 : ℚ)| * 10 = ((15 : ℕ) : ℚ) := by
    rw [abs_of_pos (by norm_num)]
    norm_num
  have hneg : ¬ ((3 / 2 : ℚ) < 0) := by norm_num
  unfold FormatFloat1
  simp only [h, roundHalfEven_natCast, hneg, if_false]
  decide

theorem qtScreenScalesLoop_succ (screens : List Screen) :
    ∀ (i : ℕ) (acc : String), 0 < i →
      qtScreenScalesLoop screens i acc = acc ++ separatedEntries (screens.map screenEntry) := by
  induction screens with
  | nil => intro i acc _; simp [qtScreenScalesLoop, separatedEntries]
  | cons screen rest ih =>
    intro i acc hi
    simp only [qtScreenScalesLoop, gt_iff_lt, hi, if_true]
    rw [ih (i + 1) _ (Nat.succ_pos i)]
    simp [separatedEntries, screenEntry, String.append_assoc]

theorem joinEntries_cons (e : String) :
    ∀ rest : List String, joinEntries (e :: rest) = e ++ separatedEntries rest
  | [] => by simp [joinEntries, separatedEntries]
  | e' :: rest => by
    rw [joinEntries, joinEntries_cons e' rest]
    simp [separatedEntries, String.append_assoc]

theorem qtScreenScales_eq_joinEntries (l : desktop) :
    l.qtScreenScales = joinEntries (l.screens.Screens.map screenEntry) := by
  unfold desktop.qtScreenScales
  cases l.screens.Screens with
  | nil => rfl
  | cons screen rest =>
    rw [List.map_cons, joinEntries_cons]
    simp only [qtScreenScalesLoop, gt_iff_lt, Nat.lt_irrefl, if_false]
    rw [qtScreenScalesLoop_succ rest 1 _ Nat.one_pos]
    simp [screenEntry, String.append_assoc]

/-- C6: `qtScreenScales` is the `;`-joined list, in screen order, of the
entries `<screen name>=<scale>` (no separator before the first or after the
last, the empty string for no screen); each scale is the larger of 1 and the
screen's canvas scale, written as an integer part, a point and one decimal
digit (the nearest tenth); for screen A with a scale of at most 1 (such as 0.8)
and screen B with scale 1.5 the result is `A=1.0;B=1.5`. -/
theorem qtScreenScales_joined (l : desktop) :
    l.qtScreenScales = joinEntries (l.screens.Screens.map
      (fun s => s.Name ++ "=" ++ FormatFloat1 (max 1 s.CanvasScale))) ∧
    (l.screens.Screens = [] → l.qtScreenScales = "") ∧
    (∀ s ∈ l.screens.Screens, ∃ n d : ℕ, d < 10 ∧
      |((10 * n + d : ℕ) : ℚ) - max 1 s.CanvasScale * 10| ≤ 1 / 2 ∧
      FormatFloat1 (max 1 s.CanvasScale) =
        toString n ++ "." ++ String.singleton (Nat.digitChar d)) ∧
    (∀ (a : ℚ) (wA hA wB hB : ℤ), a ≤ 1 →
      l.screens.Screens =
        [{ Name := "A", Width := wA, Height := hA, CanvasScale := a },
         { Name := "B", Width := wB, Height := hB, CanvasScale := 3 / 2 }] →
      l.qtScreenScales = "A=1.0;B=1.5") := by
  have hjoin := qtScreenScales_eq_joinEntries l
  refine ⟨hjoin, ?_, ?_, ?_⟩
  · intro hnil
    rw [hjoin, hnil]
    rfl
  · intro s _
    obtain ⟨n, d, hd, hnear, hfmt⟩ := FormatFloat1_shape (max 1 s.CanvasScale)
    have hpos : (0 : ℚ) < max 1 s.CanvasScale := lt_of_lt_of_le one_pos (le_max_left _ _)
    refine ⟨n, d, hd, ?_, ?_⟩
    · rwa [abs_of_pos hpos] at hnear
    · rw [hfmt, if_neg (not_lt.mpr hpos.le)]
      simp
  · intro a wA hA wB hB ha hscreens
    have hA1 : max 1 a = 1 := max_eq_left ha
    have hB1 : max (1 : ℚ) (3 / 2) = 3 / 2 := max_eq_right (by norm_num)
    rw [hjoin, hscreens]
    simp only [List.map, screenEntry, joinEntries, hA1, hB1, FormatFloat1_one,
      FormatFloat1_three_halves]
    decide

/-- The screens A and B with the `float32` values of 0.8 and 1.5 as scales. -/
theorem qtScreenScales_joined_witness :
    { sampleDesktop with
      screens :=
        { sampleDesktop.screens with
          Screens :=
            [{ Name := "A", Width := 1920, Height := 1080,
               CanvasScale := 13421773 / 16777216 },
             { Name := "B", Width := 3840, Height := 2160,
               CanvasScale := 3 / 2 }] } }.qtScreenScales = "A=1.0;B=1.5" :=
  (qtScreenScales_joined _).2.2.2 (13421773 / 16777216) 1920 1080 3840 2160
    (by norm_num) rfl

/-! ## The `float32` type: proofs -/

theorem floor_toNat_cast (t : ℚ) (ht : 0 ≤ t) : ((⌊t⌋.toNat : ℕ) : ℚ) = (⌊t⌋ : ℚ) := by
  have h : ((⌊t⌋.toNat : ℕ) : ℤ) = ⌊t⌋ := Int.toNat_of_nonneg (Int.floor_nonneg.mpr ht)
  exact_mod_cast congrArg (fun z : ℤ => (z : ℚ)) h

theorem le_roundHalfEven (t : ℚ) (n : ℕ) (h : (n : ℚ) ≤ t) : n ≤ roundHalfEven t := by
  have ht : 0 ≤ t := le_trans (Nat.cast_nonneg n) h
  have hfl : (n : ℤ) ≤ ⌊t⌋ := Int.le_floor.mpr (by exact_mod_cast h)
  have hn : n ≤ ⌊t⌋.toNat := by omega
  unfold roundHalfEven
  simp only
  split_ifs <;> omega

theorem roundHalfEven_le (t : ℚ) (n : ℕ) (ht : 0 ≤ t) (h : t ≤ (n : ℚ)) :
    roundHalfEven t ≤ n := by
  have hc := floor_toNat_cast t ht
  have h1 := Int.floor_le t
  have hfl0 : 0 ≤ ⌊t⌋ := Int.floor_nonneg.mpr ht
  have hle : ⌊t⌋.toNat ≤ n := by
    have : (⌊t⌋ : ℚ) ≤ n := le_trans h1 h
    have : ⌊t⌋ ≤ (n : ℤ) := by exact_mod_cast this
    omega
  unfold roundHalfEven
  simp only
  split_ifs with hlt hgt hev
  · exact hle
  · -- frac > 1/2, so floor < t ≤ n
    have : (⌊t⌋ : ℚ) < n := by rw [hc] at hgt; linarith
    have : ⌊t⌋ < (n : ℤ) := by exact_mod_cast this
    omega
  · exact hle
  · have hfr : t - (⌊t⌋.toNat : ℕ) = 1 / 2 := le_antisymm (not_lt.mp hgt) (not_lt.mp hlt)
    have : (⌊t⌋ : ℚ) < n := by rw [hc] at hfr; linarith
    have : ⌊t⌋ < (n : ℤ) := by exact_mod_cast this
    omega

theorem binade_ge (a : ℚ) : -126 ≤ binade a := le_max_right _ _

theorem binade_mono (a c : ℚ) (ha : 0 < a) (h : a ≤ c) : binade a ≤ binade c :=
  max_le_max (Int.log_mono_right ha h) (le_refl _)

theorem binade_eq_log (a : ℚ) (h : -126 < binade a) : binade a = Int.log 2 a := by
  unfold binade at *
  rcases le_total (Int.log 2 a) (-126) with h' | h'
  · rw [max_eq_right h'] at h; exact absurd h (lt_irrefl _)
  · exact max_eq_left h'

theorem zpow_binade_le (a : ℚ) (ha : 0 < a) (h : -126 < binade a) : (2 : ℚ) ^ binade a ≤ a := by
  rw [binade_eq_log a h]
  have := Int.zpow_log_le_self (b := 2) (r := a) (by norm_num) ha
  simpa using this

theorem lt_zpow_binade_succ (a : ℚ) : a < (2 : ℚ) ^ (binade a + 1) := by
  have h1 := Int.lt_zpow_succ_log_self (b := 2) (by norm_num) a
  have h2 : ((2 : ℕ) : ℚ) ^ (Int.log 2 a + 1) ≤ (2 : ℚ) ^ (binade a + 1) := by
    have : Int.log 2 a + 1 ≤ binade a + 1 := by
      have := le_max_left (Int.log 2 a) (-126)
      unfold binade; omega
    simpa using zpow_le_zpow_right₀ (a := (2 : ℚ)) (by norm_num) this
  exact lt_of_lt_of_le h1 h2

theorem quantum_pos (e : ℤ) : (0 : ℚ) < 2 ^ e := zpow_pos (by norm_num) e

theorem roundedMagnitude_ge (a c : ℚ) (ha : 0 < a) (hac : a ≤ c)
    (hrep : roundedMagnitude a = a) : a ≤ roundedMagnitude c := by
  have hc : 0 < c := lt_of_lt_of_le ha hac
  rcases eq_or_lt_of_le (binade_mono a c ha hac) with heq | hlt
  · unfold roundedMagnitude at *
    rw [← heq]
    have hq := quantum_pos (binade a - 23)
    have hdiv : a / 2 ^ (binade a - 23) = (roundHalfEven (a / 2 ^ (binade a - 23)) : ℚ) := by
      rw [div_eq_iff hq.ne']; exact hrep.symm
    have hle : (roundHalfEven (a / 2 ^ (binade a - 23)) : ℚ) ≤ c / 2 ^ (binade a - 23) := by
      rw [← hdiv]; exact div_le_div_of_nonneg_right hac hq.le
    have := le_roundHalfEven _ _ hle
    calc a = (roundHalfEven (a / 2 ^ (binade a - 23)) : ℚ) * 2 ^ (binade a - 23) := hrep.symm
      _ ≤ (roundHalfEven (c / 2 ^ (binade a - 23)) : ℚ) * 2 ^ (binade a - 23) :=
        mul_le_mul_of_nonneg_right (by exact_mod_cast this) hq.le
  · have hgt : -126 < binade c := lt_of_le_of_lt (binade_ge a) hlt
    have h2 := zpow_binade_le c hc hgt
    have hq := quantum_pos (binade c - 23)
    have hsplit : (2 : ℚ) ^ binade c = (2 ^ 23 : ℕ) * 2 ^ (binade c - 23) := by
      rw [zpow_sub₀ (by norm_num)]
      push_cast
      field_simp
      norm_num
      ring
    have hle : ((2 ^ 23 : ℕ) : ℚ) ≤ c / 2 ^ (binade c - 23) := by
      rw [le_div_iff₀ hq, ← hsplit]; exact h2
    have hm := le_roundHalfEven _ _ hle
    have ha2 : a < (2 : ℚ) ^ binade c :=
      lt_of_lt_of_le (lt_zpow_binade_succ a)
        (zpow_le_zpow_right₀ (by norm_num) (by omega))
    unfold roundedMagnitude
    calc a ≤ (2 : ℚ) ^ binade c := ha2.le
      _ = (2 ^ 23 : ℕ) * 2 ^ (binade c - 23) := hsplit
      _ ≤ _ := mul_le_mul_of_nonneg_right (by exact_mod_cast hm) hq.le

theorem roundedMagnitude_le (a c : ℚ) (hc : 0 < c) (hca : c ≤ a)
    (hrep : roundedMagnitude a = a) : roundedMagnitude c ≤ a := by
  have ha : 0 < a := lt_of_lt_of_le hc hca
  rcases eq_or_lt_of_le (binade_mono c a hc hca) with heq | hlt
  · unfold roundedMagnitude at *
    rw [heq]
    have hq := quantum_pos (binade a - 23)
    have hdiv : a / 2 ^ (binade a - 23) = (roundHalfEven (a / 2 ^ (binade a - 23)) : ℚ) := by
      rw [div_eq_iff hq.ne']; exact hrep.symm
    have hle : c / 2 ^ (binade a - 23) ≤ (roundHalfEven (a / 2 ^ (binade a - 23)) : ℚ) := by
      rw [← hdiv]; exact div_le_div_of_nonneg_right hca hq.le
    have := roundHalfEven_le _ _ (div_nonneg hc.le hq.le) hle
    calc (roundHalfEven (c / 2 ^ (binade a - 23)) : ℚ) * 2 ^ (binade a - 23)
        ≤ (roundHalfEven (a / 2 ^ (binade a - 23)) : ℚ) * 2 ^ (binade a - 23) :=
          mul_le_mul_of_nonneg_right (by exact_mod_cast this) hq.le
      _ = a := hrep
  · have hgt : -126 < binade a := lt_of_le_of_lt (binade_ge c) hlt
    have h2 := zpow_binade_le a ha hgt
    have hq := quantum_pos (binade c - 23)
    have hsplit : (2 : ℚ) ^ (binade c + 1) = (2 ^ 24 : ℕ) * 2 ^ (binade c - 23) := by
      rw [zpow_sub₀ (by norm_num), zpow_add₀ (by norm_num)]
      push_cast
      field_simp
      ring
    have hle : c / 2 ^ (binade c - 23) ≤ ((2 ^ 24 : ℕ) : ℚ) := by
      rw [div_le_iff₀ hq, ← hsplit]; exact (lt_zpow_binade_succ c).le
    have hm := roundHalfEven_le _ _ (div_nonneg hc.le hq.le) hle
    unfold roundedMagnitude
    calc (roundHalfEven (c / 2 ^ (binade c - 23)) : ℚ) * 2 ^ (binade c - 23)
        ≤ (2 ^ 24 : ℕ) * 2 ^ (binade c - 23) :=
          mul_le_mul_of_nonneg_right (by exact_mod_cast hm) hq.le
      _ = (2 : ℚ) ^ (binade c + 1) := hsplit.symm
      _ ≤ (2 : ℚ) ^ binade a := zpow_le_zpow_right₀ (by norm_num) (by omega)
      _ ≤ a := h2

theorem roundedMagnitude_nonneg (a : ℚ) : 0 ≤ roundedMagnitude a :=
  mul_nonneg (Nat.cast_nonneg _) (quantum_pos _).le

theorem round32_fixed (x : ℚ) (h : round32 x = Float32Val.finite x) :
    roundedMagnitude |x| = |x| ∧ |x| < 2 ^ 128 := by
  unfold round32 at h
  simp only at h
  by_cases h1 : (2 : ℚ) ^ 128 ≤ roundedMagnitude |x|
  · rw [if_pos h1] at h
    by_cases hneg : x < 0
    · rw [if_pos hneg] at h; cases h
    · rw [if_neg hneg] at h; cases h
  · rw [if_neg h1] at h
    have hlt := not_le.mp h1
    by_cases h0 : roundedMagnitude |x| = 0
    · rw [if_pos h0] at h
      by_cases hneg : x < 0
      · rw [if_pos hneg] at h; cases h
      · rw [if_neg hneg] at h
        injection h with h
        rw [← h, abs_zero] at h0 ⊢
        exact ⟨h0, by norm_num⟩
    · rw [if_neg h0] at h
      injection h with h
      by_cases hneg : x < 0
      · rw [if_pos hneg] at h
        have hx : roundedMagnitude |x| = |x| := by
          rw [abs_of_neg hneg] at h ⊢; linarith
        exact ⟨hx, by rw [← hx]; exact hlt⟩
      · rw [if_neg hneg] at h
        have hx : roundedMagnitude |x| = |x| := by
          rw [abs_of_nonneg (not_lt.mp hneg)] at h ⊢; exact h
        exact ⟨hx, by rw [← hx]; exact hlt⟩

theorem finite_le_round32 (x y : ℚ)
    (h : if y < 0 then roundedMagnitude |y| < 2 ^ 128 ∧ x ≤ -roundedMagnitude |y|
         else x ≤ roundedMagnitude |y|) :
    (Float32Val.finite x).le (round32 y) = true := by
  unfold round32
  simp only
  by_cases hy : y < 0
  · rw [if_pos hy] at h
    simp only [hy, if_true, not_le.mpr h.1, if_false]
    split_ifs with h0
    · have := h.2; rw [h0] at this
      simpa [Float32Val.le] using this
    · simpa [Float32Val.le] using h.2
  · rw [if_neg hy] at h
    simp only [hy, if_false]
    split_ifs with h1 h0
    · rfl
    · rw [h0] at h
      simpa [Float32Val.le] using h
    · simpa [Float32Val.le] using h

theorem finite_le_round32_add (x w : ℚ) (hx : round32 x = Float32Val.finite x) (hw : 0 ≤ w) :
    (Float32Val.finite x).le (round32 (x + w)) = true := by
  obtain ⟨hrep, hfin⟩ := round32_fixed x hx
  apply finite_le_round32
  by_cases hy : x + w < 0
  · rw [if_pos hy]
    have hxneg : x < 0 := by linarith
    have hle : |x + w| ≤ |x| := by
      rw [abs_of_neg hy, abs_of_neg hxneg]; linarith
    have hmag := roundedMagnitude_le |x| |x + w| (abs_pos.mpr hy.ne) hle hrep
    refine ⟨lt_of_le_of_lt hmag hfin, ?_⟩
    rw [abs_of_neg hxneg] at hmag
    linarith
  · rw [if_neg hy]
    have hy' : 0 ≤ x + w := not_lt.mp hy
    rcases le_or_lt x 0 with hx0 | hx0
    · exact le_trans hx0 (roundedMagnitude_nonneg _)
    · have hmag := roundedMagnitude_ge |x| |x + w| (abs_pos.mpr hx0.ne')
        (by rw [abs_of_pos hx0, abs_of_nonneg hy']; linarith) hrep
      rwa [abs_of_pos hx0] at hmag

theorem log_eq_of_bounds (a : ℚ) (e : ℤ) (h1 : (2 : ℚ) ^ e ≤ a) (h2 : a < (2 : ℚ) ^ (e + 1)) :
    Int.log 2 a = e := by
  have ha : 0 < a := lt_of_lt_of_le (quantum_pos e) h1
  have hle : e ≤ Int.log 2 a :=
    (Int.zpow_le_iff_le_log (b := 2) (by norm_num) ha).mp (by simpa using h1)
  have hlt : Int.log 2 a < e + 1 :=
    (Int.lt_zpow_iff_log_lt (b := 2) (by norm_num) ha).mp (by simpa using h2)
  omega

theorem binade_eq_of_bounds (a : ℚ) (e : ℤ) (he : -126 ≤ e) (h1 : (2 : ℚ) ^ e ≤ a)
    (h2 : a < (2 : ℚ) ^ (e + 1)) : binade a = e := by
  unfold binade
  rw [log_eq_of_bounds a e h1 h2]
  exact max_eq_left he

theorem roundHalfEven_eq_down (t : ℚ) (n : ℕ) (h1 : (n : ℚ) ≤ t) (h2 : t < n + 1 / 2) :
    roundHalfEven t = n := by
  have hfl : ⌊t⌋ = (n : ℤ) := Int.floor_eq_iff.mpr ⟨by exact_mod_cast h1, by push_cast; linarith⟩
  unfold roundHalfEven
  simp only [hfl, Int.toNat_ofNat]
  rw [if_pos (by linarith)]

theorem roundHalfEven_eq_up (t : ℚ) (n : ℕ) (h1 : (n : ℚ) + 1 / 2 < t) (h2 : t < n + 1) :
    roundHalfEven t = n + 1 := by
  have hfl : ⌊t⌋ = (n : ℤ) := Int.floor_eq_iff.mpr ⟨by push_cast; linarith, by exact_mod_cast h2⟩
  unfold roundHalfEven
  simp only [hfl, Int.toNat_ofNat]
  rw [if_neg (by linarith), if_pos (by linarith)]

theorem roundedMagnitude_eval (a : ℚ) (e : ℤ) (m : ℕ) (he : -126 ≤ e)
    (h1 : (2 : ℚ) ^ e ≤ a) (h2 : a < (2 : ℚ) ^ (e + 1))
    (hm : roundHalfEven (a / 2 ^ (e - 23)) = m) :
    roundedMagnitude a = (m : ℚ) * 2 ^ (e - 23) := by
  unfold roundedMagnitude
  rw [binade_eq_of_bounds a e he h1 h2, hm]

theorem round32_eval_pos (q : ℚ) (e : ℤ) (m : ℕ) (hq : 0 < q) (he : -126 ≤ e)
    (h1 : (2 : ℚ) ^ e ≤ q) (h2 : q < (2 : ℚ) ^ (e + 1))
    (hm : roundHalfEven (q / 2 ^ (e - 23)) = m) (hm0 : 0 < m)
    (hfin : (m : ℚ) * 2 ^ (e - 23) < 2 ^ 128) :
    round32 q = Float32Val.finite ((m : ℚ) * 2 ^ (e - 23)) := by
  have hmag : roundedMagnitude |q| = (m : ℚ) * 2 ^ (e - 23) := by
    rw [abs_of_pos hq]
    exact roundedMagnitude_eval q e m he h1 h2 hm
  have hpos : (0 : ℚ) < (m : ℚ) * 2 ^ (e - 23) :=
    mul_pos (by exact_mod_cast hm0) (quantum_pos _)
  unfold round32
  simp only [hmag]
  rw [if_neg (not_le.mpr hfin), if_neg hpos.ne', if_neg (not_lt.mpr hq.le)]

theorem round32_eval_neg (q : ℚ) (e : ℤ) (m : ℕ) (hq : q < 0) (he : -126 ≤ e)
    (h1 : (2 : ℚ) ^ e ≤ -q) (h2 : -q < (2 : ℚ) ^ (e + 1))
    (hm : roundHalfEven (-q / 2 ^ (e - 23)) = m) (hm0 : 0 < m)
    (hfin : (m : ℚ) * 2 ^ (e - 23) < 2 ^ 128) :
    round32 q = Float32Val.finite (-((m : ℚ) * 2 ^ (e - 23))) := by
  have hmag : roundedMagnitude |q| = (m : ℚ) * 2 ^ (e - 23) := by
    rw [abs_of_neg hq]
    exact roundedMagnitude_eval (-q) e m he h1 h2 hm
  have hpos : (0 : ℚ) < (m : ℚ) * 2 ^ (e - 23) :=
    mul_pos (by exact_mod_cast hm0) (quantum_pos _)
  unfold round32
  simp only [hmag]
  rw [if_neg (not_le.mpr hfin), if_neg hpos.ne', if_pos hq]

theorem round32_zero : round32 0 = Float32Val.finite 0 := by
  have hmag : roundedMagnitude |(0 : ℚ)| = 0 := by
    simp [roundedMagnitude, roundHalfEven]
  unfold round32
  simp only [hmag]
  norm_num

theorem mathRound_intCast (z : ℤ) : mathRound (z : ℚ) = z := by
  unfold mathRound
  have hfloor : ∀ y : ℤ, ⌊(y : ℚ) + 1 / 2⌋ = y := fun y =>
    Int.floor_eq_iff.mpr ⟨by linarith, by linarith⟩
  split_ifs with h
  · exact hfloor z
  · have hneg : -(z : ℚ) + 1 / 2 = ((-z : ℤ) : ℚ) + 1 / 2 := by push_cast; ring
    rw [hneg, hfloor]
    simp

/-! ## Scale variables of a launched application: proofs -/

theorem float32_1e20 : isFloat32 100000002004087734272 := by
  have h := round32_eval_pos 100000002004087734272 66 11368684 (by norm_num) (by norm_num)
    (by norm_num) (by norm_num)
    (roundHalfEven_eq_down _ 11368684 (by norm_num) (by norm_num)) (by norm_num)
    (by norm_num)
  unfold isFloat32
  rw [h]
  norm_num

theorem scaleVars_finite (l : desktop) (x : ℚ)
    (hrange : -2 ^ 63 ≤ mathRound x ∧ mathRound x < 2 ^ 63) :
    l.scaleVars (Float32Val.finite x) =
      [ "QT_SCREEN_SCALE_FACTORS=" ++ joinEntries (l.screens.Screens.map screenEntry),
        "GDK_SCALE=" ++ Itoa (mathRound x),
        "ELM_SCALE=" ++ FormatFloat1 x ] := by
  simp only [desktop.scaleVars, roundToInt, intOfFloat, FormatFloat32, if_pos hrange,
    qtScreenScales_eq_joinEntries]

/-- C7, as amended: for every finite scale factor whose nearest integer is in
the range of the 64-bit `int`, `scaleVars` returns exactly three assignments,
in this order: `QT_SCREEN_SCALE_FACTORS=` with the per-screen scale string,
`GDK_SCALE=` with the scale rounded to a nearest integer (halves away from
zero, so 1.5 gives 2) and `ELM_SCALE=` with the scale written with one decimal
digit; the negative zero gives `GDK_SCALE=0` and `ELM_SCALE=-0.0`.  For every
scale factor the result is three assignments with these names in this order. -/
theorem scaleVars_three_assignments (l : desktop) (x : ℚ)
    (hrange : -2 ^ 63 ≤ mathRound x ∧ mathRound x < 2 ^ 63) :
    l.scaleVars (Float32Val.finite x) =
      [ "QT_SCREEN_SCALE_FACTORS=" ++ joinEntries (l.screens.Screens.map screenEntry),
        "GDK_SCALE=" ++ Itoa (mathRound x),
        "ELM_SCALE=" ++ FormatFloat1 x ] ∧
    |((mathRound x : ℤ) : ℚ) - x| ≤ 1 / 2 ∧
    (∀ k : ℤ, x = (k : ℚ) + 1 / 2 → mathRound x = if 0 ≤ k then k + 1 else k) ∧
    (x = 3 / 2 →
      (l.scaleVars (Float32Val.finite x)).tail = ["GDK_SCALE=2", "ELM_SCALE=1.5"]) ∧
    (∃ n d : ℕ, d < 10 ∧ |((10 * n + d : ℕ) : ℚ) - |x| * 10| ≤ 1 / 2 ∧
      FormatFloat1 x = (if x < 0 then "-" else "") ++ toString n ++ "." ++
        String.singleton (Nat.digitChar d)) ∧
    l.scaleVars Float32Val.negZero =
      [ "QT_SCREEN_SCALE_FACTORS=" ++ joinEntries (l.screens.Screens.map screenEntry),
        "GDK_SCALE=0", "ELM_SCALE=-0.0" ] ∧
    (∀ scale : Float32Val, ∃ gdk elm : String,
      l.scaleVars scale =
        [ "QT_SCREEN_SCALE_FACTORS=" ++ joinEntries (l.screens.Screens.map screenEntry),
          "GDK_SCALE=" ++ gdk, "ELM_SCALE=" ++ elm ]) := by
  have hfin := scaleVars_finite l x hrange
  refine ⟨hfin, mathRound_near x, ?_, ?_, FormatFloat1_shape x, ?_, ?_⟩
  · intro k hk
    rw [hk]
    exact mathRound_half k
  · intro hx
    have hround : mathRound (3 / 2) = 2 := by
      have h := mathRound_half 1
      norm_num at h
      exact h
    have h2 : "GDK_SCALE=" ++ Itoa 2 = "GDK_SCALE=2" := by decide
    have h15 : "ELM_SCALE=" ++ "1.5" = "ELM_SCALE=1.5" := by decide
    rw [hfin, hx, hround, FormatFloat1_three_halves, h2, h15]
    rfl
  · have h0 : "GDK_SCALE=" ++ Itoa 0 = "GDK_SCALE=0" := by decide
    have hm0 : "ELM_SCALE=" ++ "-0.0" = "ELM_SCALE=-0.0" := by decide
    simp only [desktop.scaleVars, roundToInt, FormatFloat32, qtScreenScales_eq_joinEntries,
      h0, hm0]
  · intro scale
    exact ⟨Itoa (roundToInt scale), FormatFloat32 scale, by
      simp only [desktop.scaleVars, qtScreenScales_eq_joinEntries]⟩

/-- The three assignments for one screen of scale 1 and a scale factor of 1.5. -/
theorem scaleVars_three_assignments_witness :
    sampleDesktop.scaleVars (Float32Val.finite (3 / 2)) =
      ["QT_SCREEN_SCALE_FACTORS=A=1.0", "GDK_SCALE=2", "ELM_SCALE=1.5"] := by
  have hround : mathRound (3 / 2) = 2 := by
    have h := mathRound_half 1
    norm_num at h
    exact h
  have h := (scaleVars_three_assignments sampleDesktop (3 / 2)
    (by rw [hround]; norm_num)).1
  rw [h, hround, FormatFloat1_three_halves]
  simp only [sampleDesktop, List.map, screenEntry, joinEntries, max_self, FormatFloat1_one]
  decide

/-- For the scale factor `float32(1e20)`, whose value is the integer
100000002004087734272, the second assignment is
`GDK_SCALE=-9223372036854775808`, not the scale rounded to the nearest integer. -/
theorem scaleVars_out_of_range :
    isFloat32 100000002004087734272 ∧
    mathRound 100000002004087734272 = 100000002004087734272 ∧
    (sampleDesktop.scaleVars (Float32Val.finite 100000002004087734272)).tail.head? =
      some "GDK_SCALE=-9223372036854775808" ∧
    (sampleDesktop.scaleVars (Float32Val.finite 100000002004087734272)).tail.head? ≠
      some ("GDK_SCALE=" ++ Itoa (mathRound 100000002004087734272)) := by
  have hround : mathRound 100000002004087734272 = 100000002004087734272 := by
    have h := mathRound_intCast 100000002004087734272
    norm_num at h
    exact h
  have hgdk : (sampleDesktop.scaleVars (Float32Val.finite 100000002004087734272)).tail.head? =
      some "GDK_SCALE=-9223372036854775808" := by
    simp only [desktop.scaleVars, roundToInt, intOfFloat, hround, List.tail, List.head?]
    norm_num
    decide
  refine ⟨float32_1e20, hround, hgdk, ?_⟩
  rw [hgdk, hround]
  decide

/-! ## Pointer notifications and layout: proofs -/

theorem float32_one : round32 1 = Float32Val.finite 1 := by
  rw [round32_eval_pos 1 0 8388608 (by norm_num) (by norm_num) (by norm_num) (by norm_num)
    (roundHalfEven_eq_down _ 8388608 (by norm_num) (by norm_num)) (by norm_num) (by norm_num)]
  norm_num

theorem float32_41 : round32 41 = Float32Val.finite 41 := by
  rw [round32_eval_pos 41 5 10747904 (by norm_num) (by norm_num) (by norm_num) (by norm_num)
    (roundHalfEven_eq_down _ 10747904 (by norm_num) (by norm_num)) (by norm_num) (by norm_num)]
  norm_num

theorem float32_1040 : round32 1040 = Float32Val.finite 1040 := by
  rw [round32_eval_pos 1040 10 8519680 (by norm_num) (by norm_num) (by norm_num) (by norm_num)
    (roundHalfEven_eq_down _ 8519680 (by norm_num) (by norm_num)) (by norm_num) (by norm_num)]
  norm_num

theorem float32_1720 : round32 1720 = Float32Val.finite 1720 := by
  rw [round32_eval_pos 1720 10 14090240 (by norm_num) (by norm_num) (by norm_num) (by norm_num)
    (roundHalfEven_eq_down _ 14090240 (by norm_num) (by norm_num)) (by norm_num) (by norm_num)]
  norm_num

theorem float32_tenth_plus_fifth :
    round32 (13421773 / 134217728 + 13421773 / 67108864) =
      Float32Val.finite (5033165 / 16777216) := by
  rw [round32_eval_pos _ (-2) 10066330 (by norm_num) (by norm_num) (by norm_num) (by norm_num)
    (roundHalfEven_eq_up _ 10066329 (by norm_num) (by norm_num)) (by norm_num) (by norm_num)]
  norm_num

theorem float32_panel_left :
    round32 (5295309 / 524288 + -200) = Float32Val.finite (-6222643 / 32768) := by
  rw [round32_eval_neg _ 7 12445286 (by norm_num) (by norm_num) (by norm_num) (by norm_num)
    (roundHalfEven_eq_down _ 12445286 (by norm_num) (by norm_num)) (by norm_num) (by norm_num)]
  norm_num

theorem float32_ten_point_one : isFloat32 (5295309 / 524288) := by
  unfold isFloat32
  rw [round32_eval_pos _ 3 10590618 (by norm_num) (by norm_num) (by norm_num) (by norm_num)
    (roundHalfEven_eq_down _ 10590618 (by norm_num) (by norm_num)) (by norm_num) (by norm_num)]
  norm_num

theorem Float32Val.le_refl_finite (x : ℚ) :
    (Float32Val.finite x).le (Float32Val.finite x) = true := by
  simp [Float32Val.le]

theorem MouseInNotify_of_inside (l : desktop) (pos : Position) (h : l.pointerInBar pos) :
    l.MouseInNotify pos = { l with calls := l.calls ++ [Call.barMouseIn pos pos] } := by
  obtain ⟨b, hb, h1, h2, h3, h4⟩ := h
  simp [desktop.MouseInNotify, hb, Float32Val.ge, h1, h2, h3, h4]

theorem MouseInNotify_of_outside (l : desktop) (pos : Position) (h : ¬ l.pointerInBar pos) :
    l.MouseInNotify pos = l := by
  cases hb : l.bar with
  | none => simp [desktop.MouseInNotify, hb]
  | some b =>
    simp only [desktop.MouseInNotify, hb, Float32Val.ge]
    split_ifs with hx hy
    · rw [Bool.and_eq_true] at hx hy
      exact absurd ⟨b, hb, hx.1, hx.2, hy.1, hy.2⟩ h
    · rfl
    · rfl

/-- C8, as amended: `MouseInNotify(pos)` forwards an enter event carrying
`pos` to the bar exactly when the bar has been built and
`barX <= pos.X <= barX+barWidth` and `barY <= pos.Y <= barY+barHeight`, the two
sums being the `float32` sums the code computes and all four bounds inclusive;
otherwise it does nothing.  When the two sums are exact the bounds are the
edges of the bar's rectangle.  The top-left corner of a bar with a finite
position and a non-negative finite size is inside, a position one unit beyond
any of the four bounds is outside, and with no bar nothing is forwarded. -/
theorem MouseInNotify_forwards_iff_inside (l : desktop) (pos : Position) :
    ((l.MouseInNotify pos).calls = l.calls ++ [Call.barMouseIn pos pos] ↔
      ∃ b, l.bar = some b ∧
        b.position.X.le pos.X = true ∧
        pos.X.le (b.position.X.add b.size.Width) = true ∧
        b.position.Y.le pos.Y = true ∧
        pos.Y.le (b.position.Y.add b.size.Height) = true) ∧
    (l.pointerInBar pos →
      l.MouseInNotify pos = { l with calls := l.calls ++ [Call.barMouseIn pos pos] }) ∧
    (¬ l.pointerInBar pos → l.MouseInNotify pos = l) ∧
    (∀ b barX barY barWidth barHeight mouseX mouseY,
      l.bar = some b →
      b.position = { X := .finite barX, Y := .finite barY } →
      b.size = { Width := .finite barWidth, Height := .finite barHeight } →
      pos = { X := .finite mouseX, Y := .finite mouseY } →
      (Float32Val.finite barX).add (.finite barWidth) = .finite (barX + barWidth) →
      (Float32Val.finite barY).add (.finite barHeight) = .finite (barY + barHeight) →
      (l.pointerInBar pos ↔
        barX ≤ mouseX ∧ mouseX ≤ barX + barWidth ∧
        barY ≤ mouseY ∧ mouseY ≤ barY + barHeight)) ∧
    (∀ b barX barY barWidth barHeight,
      l.bar = some b →
      b.position = { X := .finite barX, Y := .finite barY } →
      b.size = { Width := .finite barWidth, Height := .finite barHeight } →
      isFloat32 barX → isFloat32 barY → 0 ≤ barWidth → 0 ≤ barHeight →
      (l.MouseInNotify b.position).calls =
        l.calls ++ [Call.barMouseIn b.position b.position]) ∧
    (∀ b barX barY mouseX mouseY,
      l.bar = some b →
      b.position = { X := .finite barX, Y := .finite barY } →
      pos = { X := .finite mouseX, Y := .finite mouseY } →
      (mouseX = barX - 1 ∨ mouseY = barY - 1) →
      l.MouseInNotify pos = l) ∧
    (∀ b right bottom mouseX mouseY,
      l.bar = some b →
      b.position.X.add b.size.Width = .finite right →
      b.position.Y.add b.size.Height = .finite bottom →
      pos = { X := .finite mouseX, Y := .finite mouseY } →
      (mouseX = right + 1 ∨ mouseY = bottom + 1) →
      l.MouseInNotify pos = l) ∧
    (l.bar = none → l.MouseInNotify pos = l) := by
  refine ⟨⟨?_, ?_⟩, MouseInNotify_of_inside l pos, MouseInNotify_of_outside l pos,
    ?_, ?_, ?_, ?_, ?_⟩
  · intro hcalls
    by_contra hout
    rw [MouseInNotify_of_outside l pos hout] at hcalls
    have hlen := congrArg List.length hcalls
    simp at hlen
  · intro hin
    rw [MouseInNotify_of_inside l pos hin]
  · intro b barX barY barWidth barHeight mouseX mouseY hb hpos hsize hmouse hsumX hsumY
    constructor
    · rintro ⟨b', hb', h1, h2, h3, h4⟩
      rw [hb] at hb'
      cases hb'
      rw [hpos, hmouse] at h1 h3
      rw [hpos, hsize, hmouse] at h2 h4
      simp only at h1 h2 h3 h4
      rw [hsumX] at h2
      rw [hsumY] at h4
      simp only [Float32Val.le, decide_eq_true_eq] at h1 h2 h3 h4
      exact ⟨h1, h2, h3, h4⟩
    · rintro ⟨h1, h2, h3, h4⟩
      refine ⟨b, hb, ?_, ?_, ?_, ?_⟩
      · rw [hpos, hmouse]; simpa [Float32Val.le] using h1
      · rw [hpos, hsize, hmouse]; simp only; rw [hsumX]; simpa [Float32Val.le] using h2
      · rw [hpos, hmouse]; simpa [Float32Val.le] using h3
      · rw [hpos, hsize, hmouse]; simp only; rw [hsumY]; simpa [Float32Val.le] using h4
  · intro b barX barY barWidth barHeight hb hpos hsize hX hY hw hh
    rw [MouseInNotify_of_inside l b.position ⟨b, hb, ?_, ?_, ?_, ?_⟩]
    · rw [hpos]; exact Float32Val.le_refl_finite barX
    · rw [hpos, hsize]; exact finite_le_round32_add barX barWidth hX hw
    · rw [hpos]; exact Float32Val.le_refl_finite barY
    · rw [hpos, hsize]; exact finite_le_round32_add barY barHeight hY hh
  · intro b barX barY mouseX mouseY hb hpos hmouse hedge
    apply MouseInNotify_of_outside
    rintro ⟨b', hb', h1, _, h3, _⟩
    rw [hb] at hb'
    cases hb'
    rw [hpos, hmouse] at h1 h3
    simp only [Float32Val.le, decide_eq_true_eq] at h1 h3
    rcases hedge with h | h <;> linarith
  · intro b right bottom mouseX mouseY hb hright hbottom hmouse hedge
    apply MouseInNotify_of_outside
    rintro ⟨b', hb', _, h2, _, h4⟩
    rw [hb] at hb'
    cases hb'
    rw [hright, hmouse] at h2
    rw [hbottom, hmouse] at h4
    simp only [Float32Val.le, decide_eq_true_eq] at h2 h4
    rcases hedge with h | h <;> linarith
  · intro hb
    apply MouseInNotify_of_outside
    rintro ⟨b, hb', _⟩
    rw [hb] at hb'
    cases hb'

/-- The pointer on the top-left corner of the sample bar enters the bar; one
unit above it, it does not. -/
theorem MouseInNotify_forwards_iff_inside_witness :
    (builtDesktop.MouseInNotify { X := .finite 0, Y := .finite 1040 }).calls =
      [Call.barMouseIn { X := .finite 0, Y := .finite 1040 }
        { X := .finite 0, Y := .finite 1040 }] ∧
    builtDesktop.MouseInNotify { X := .finite 0, Y := .finite 1039 } = builtDesktop :=
  ⟨(MouseInNotify_forwards_iff_inside builtDesktop
      { X := .finite 0, Y := .finite 1040 }).2.2.2.2.1
      sampleBar 0 1040 1920 41 rfl rfl rfl round32_zero float32_1040
      (by norm_num) (by norm_num),
   (MouseInNotify_forwards_iff_inside builtDesktop
      { X := .finite 0, Y := .finite 1039 }).2.2.2.2.2.1
      sampleBar 0 1040 0 1039 rfl rfl rfl (Or.inr (by norm_num))⟩

/-- With the bar at `y = 0.1` of height `0.2` (as `float32` values) the pointer
at `y = 0.3` is forwarded to the bar, the `float32` sum of 0.1 and 0.2 being
0.3, although it lies above the exact sum of the two, outside the rectangle. -/
theorem MouseInNotify_beyond_exact_edge :
    ({ builtDesktop with bar := some thinBar }.MouseInNotify
        { X := .finite 0, Y := .finite (5033165 / 16777216) }).calls =
      [Call.barMouseIn { X := .finite 0, Y := .finite (5033165 / 16777216) }
        { X := .finite 0, Y := .finite (5033165 / 16777216) }] ∧
    ¬ ((5033165 / 16777216 : ℚ) ≤ 13421773 / 134217728 + 13421773 / 67108864) ∧
    ¬ ({ builtDesktop with bar := some thinBar }.pointerInBarExact
        { X := .finite 0, Y := .finite (5033165 / 16777216) }) := by
  refine ⟨?_, by norm_num, ?_⟩
  · have hin : ({ builtDesktop with bar := some thinBar } : desktop).pointerInBar
        { X := .finite 0, Y := .finite (5033165 / 16777216) } := by
      refine ⟨thinBar, rfl, ?_, ?_, ?_, ?_⟩
      · simp [thinBar, Float32Val.le]
      · have h : (Float32Val.finite 0).add (Float32Val.finite 1) = Float32Val.finite 1 := by
          simp only [Float32Val.add, zero_add, float32_one]
        simp only [thinBar, h]
        simp [Float32Val.le]
      · simp only [thinBar, Float32Val.le, decide_eq_true_eq]
        norm_num
      · simp only [thinBar, Float32Val.add, float32_tenth_plus_fifth]
        simp [Float32Val.le]
    rw [MouseInNotify_of_inside _ _ hin]
    rfl
  · rintro ⟨b, barX, barY, barWidth, barHeight, mouseX, mouseY, hb, hx, hy, hw, hh, hmx, hmy,
      _, _, _, h4⟩
    have hb' : thinBar = b := Option.some.inj hb
    subst hb'
    simp only [thinBar, Float32Val.toRat?, Option.some.injEq] at hx hy hw hh hmx hmy
    rw [← hy, ← hh, ← hmy] at h4
    norm_num at h4

theorem Layout_eq (l : desktop) (bg : background) (others : List CanvasObject)
    (size : Size) (b : bar) (w : widgetPanel)
    (hb : l.bar = some b) (hw : l.widgets = some w) :
    l.Layout (CanvasObject.background bg :: others) size =
      some (CanvasObject.background { bg with size := size } :: others,
        { l with
          bar := some { b with
            size := { Width := size.Width, Height := b.minSize.Height.add (.finite 1) }
            position := { X := .finite 0, Y := size.Height.sub b.minSize.Height } }
          widgets := some { w with
            size := { Width := w.minSize.Width, Height := size.Height }
            position := { X := size.Width.sub w.minSize.Width, Y := .finite 0 } }
          calls := l.calls ++
            [Call.barRefresh { b with
                size := { Width := size.Width, Height := b.minSize.Height.add (.finite 1) }
                position := { X := .finite 0, Y := size.Height.sub b.minSize.Height } },
             Call.widgetsRefresh { w with
                size := { Width := w.minSize.Width, Height := size.Height }
                position := { X := size.Width.sub w.minSize.Width, Y := .finite 0 } }] }) := by
  simp [desktop.Layout, hb, hw]

/-- C9, as amended: for a surface of size `(W, H)`, `Layout` resizes the
background to `(W, H)`, gives the bar the size `(W, barHeight + 1)` at position
`(0, H - barHeight)` with `barHeight` the bar's minimum height, and gives the
widget panel the size `(panelWidth, H)` at position `(W - panelWidth, 0)` with
`panelWidth` the panel's minimum width, the sum and the two differences being
`float32` operations; each is refreshed after it is placed.  When these three
operations are exact, the bar spans `(0, H - barHeight)` to `(W, H + 1)` and
the panel `(W - panelWidth, 0)` to `(W, H)`. -/
theorem Layout_geometry (l : desktop) (bg : background) (others : List CanvasObject)
    (size : Size) (b : bar) (w : widgetPanel)
    (hb : l.bar = some b) (hw : l.widgets = some w) :
    ∃ (l' : desktop) (b' : bar) (w' : widgetPanel),
      l.Layout (CanvasObject.background bg :: others) size =
        some (CanvasObject.background { bg with size := size } :: others, l') ∧
      l'.bar = some b' ∧ l'.widgets = some w' ∧
      b'.size = { Width := size.Width, Height := b.minSize.Height.add (.finite 1) } ∧
      b'.position = { X := .finite 0, Y := size.Height.sub b.minSize.Height } ∧
      w'.size = { Width := w.minSize.Width, Height := size.Height } ∧
      w'.position = { X := size.Width.sub w.minSize.Width, Y := .finite 0 } ∧
      l'.calls = l.calls ++ [Call.barRefresh b', Call.widgetsRefresh w'] ∧
      l' = { l with bar := some b', widgets := some w', calls := l'.calls } ∧
      (∀ W H barHeight panelWidth : ℚ,
        size = { Width := .finite W, Height := .finite H } →
        b.minSize.Height = .finite barHeight →
        w.minSize.Width = .finite panelWidth →
        (Float32Val.finite barHeight).add (.finite 1) = .finite (barHeight + 1) →
        (Float32Val.finite H).sub (.finite barHeight) = .finite (H - barHeight) →
        (Float32Val.finite W).sub (.finite panelWidth) = .finite (W - panelWidth) →
        b'.position = { X := .finite 0, Y := .finite (H - barHeight) } ∧
        b'.size = { Width := .finite W, Height := .finite (barHeight + 1) } ∧
        farCorner b'.position b'.size = some (W, H + 1) ∧
        w'.position = { X := .finite (W - panelWidth), Y := .finite 0 } ∧
        w'.size = { Width := .finite panelWidth, Height := .finite H } ∧
        farCorner w'.position w'.size = some (W, H)) := by
  refine ⟨_, _, _, Layout_eq l bg others size b w hb hw, rfl, rfl, rfl, rfl, rfl, rfl, rfl, rfl,
    ?_⟩
  intro W H barHeight panelWidth hsize hbar hpanel hadd hsubH hsubW
  simp only [hsize, hbar, hpanel, hadd, hsubH, hsubW, farCorner, Float32Val.toRat?]
  refine ⟨trivial, trivial, ?_, trivial, trivial, ?_⟩
  · congr 1
    ext
    · simp
    · show H - barHeight + (barHeight + 1) = H + 1
      ring
  · congr 1
    ext
    · show W - panelWidth + panelWidth = W
      ring
    · simp

/-- The sample bar and panel laid out on a 1920 by 1080 surface: the bar spans
`(0, 1040)` to `(1920, 1081)` and the panel `(1720, 0)` to `(1920, 1080)`. -/
theorem Layout_geometry_witness :
    ∃ (l' : desktop) (b' : bar) (w' : widgetPanel),
      builtDesktop.Layout
          [CanvasObject.background { size := { Width := .finite 0, Height := .finite 0 } },
           CanvasObject.bar, CanvasObject.widgets, CanvasObject.mouse]
          { Width := .finite 1920, Height := .finite 1080 } =
        some ([CanvasObject.background
                { size := { Width := .finite 1920, Height := .finite 1080 } },
               CanvasObject.bar, CanvasObject.widgets, CanvasObject.mouse], l') ∧
      l'.bar = some b' ∧ l'.widgets = some w' ∧
      b'.position = { X := .finite 0, Y := .finite 1040 } ∧
      b'.size = { Width := .finite 1920, Height := .finite 41 } ∧
      farCorner b'.position b'.size = some (1920, 1081) ∧
      w'.position = { X := .finite 1720, Y := .finite 0 } ∧
      w'.size = { Width := .finite 200, Height := .finite 1080 } ∧
      farCorner w'.position w'.size = some (1920, 1080) := by
  obtain ⟨l', b', w', hlay, hbar, hwid, _, _, _, _, _, _, hexact⟩ :=
    Layout_geometry builtDesktop { size := { Width := .finite 0, Height := .finite 0 } }
      [CanvasObject.bar, CanvasObject.widgets, CanvasObject.mouse]
      { Width := .finite 1920, Height := .finite 1080 } sampleBar samplePanel rfl rfl
  have hadd : (Float32Val.finite 40).add (.finite 1) = .finite (40 + 1) := by
    simp only [Float32Val.add]
    norm_num
    exact float32_41
  have hsubH : (Float32Val.finite 1080).sub (.finite 40) = .finite (1080 - 40) := by
    simp only [Float32Val.sub, Float32Val.neg, Float32Val.add]
    norm_num
    exact float32_1040
  have hsubW : (Float32Val.finite 1920).sub (.finite 200) = .finite (1920 - 200) := by
    simp only [Float32Val.sub, Float32Val.neg, Float32Val.add]
    norm_num
    exact float32_1720
  obtain ⟨h1, h2, h3, h4, h5, h6⟩ := hexact 1920 1080 40 200 rfl rfl rfl hadd hsubH hsubW
  refine ⟨l', b', w', hlay, hbar, hwid, ?_, ?_, ?_, ?_, ?_, ?_⟩
  · rw [h1]; norm_num
  · rw [h2]; norm_num
  · rw [h3]; norm_num
  · rw [h4]; norm_num
  · rw [h5]
  · rw [h6]

/-- For a surface of width `float32(10.1)` and the panel of minimum width 200,
the panel is placed at `x = -6222643/32768`, the `float32` nearest to
`W - 200`; its right edge is then at `330957/32768`, which is not `W`. -/
theorem Layout_panel_right_edge :
    isFloat32 (5295309 / 524288) ∧
    ∃ (objects : List CanvasObject) (l' : desktop) (w' : widgetPanel),
      builtDesktop.Layout
          [CanvasObject.background { size := { Width := .finite 0, Height := .finite 0 } },
           CanvasObject.bar, CanvasObject.widgets, CanvasObject.mouse]
          { Width := .finite (5295309 / 524288), Height := .finite 1080 } =
        some (objects, l') ∧
      l'.widgets = some w' ∧
      w'.position = { X := .finite (-6222643 / 32768), Y := .finite 0 } ∧
      w'.size = { Width := .finite 200, Height := .finite 1080 } ∧
      farCorner w'.position w'.size = some (330957 / 32768, 1080) ∧
      farCorner w'.position w'.size ≠ some (5295309 / 524288, 1080) := by
  have hsub : (Float32Val.finite (5295309 / 524288)).sub (.finite 200) =
      .finite (-6222643 / 32768) := by
    simp only [Float32Val.sub, Float32Val.neg, Float32Val.add]
    rw [if_neg (by norm_num)]
    exact float32_panel_left
  refine ⟨float32_ten_point_one, _, _, _,
    Layout_eq builtDesktop { size := { Width := .finite 0, Height := .finite 0 } }
      [CanvasObject.bar, CanvasObject.widgets, CanvasObject.mouse]
      { Width := .finite (5295309 / 524288), Height := .finite 1080 } sampleBar samplePanel
      rfl rfl, rfl, ?_, rfl, ?_, ?_⟩
  · simp only [samplePanel, hsub]
  · simp only [samplePanel, hsub, farCorner, Float32Val.toRat?]
    norm_num
  · simp only [samplePanel, hsub, farCorner, Float32Val.toRat?]
    norm_num

/-! ## Reaction to settings changes: proofs -/

theorem updateBackgrounds_of_root (l : desktop) (path : String) (win : Window)
    (bg : background) (others : List CanvasObject) (hroot : l.root = some win)
    (hcontent : win.content = some (CanvasObject.background bg :: others)) :
    l.updateBackgrounds path = some { l with calls := l.calls ++ [Call.updateBackground path] } := by
  simp [desktop.updateBackgrounds, hroot, hcontent]

theorem freshInstances_not_cached (l : desktop) (h : l.cacheAllocated)
    (mds : List ModuleMetadata) :
    ∀ m ∈ freshInstances mds l.allocated, m ∉ l.moduleCache.elems := by
  intro m hm hcached
  exact absurd (freshInstances_id_ge mds l.allocated m hm) (Nat.not_le.mpr (h m hcached))

theorem freshInstances_id_lt (mds : List ModuleMetadata) :
    ∀ start, ∀ m ∈ freshInstances mds start, m.id < start + (freshInstances mds start).length := by
  induction mds with
  | nil => intro start m hm; simp [freshInstances] at hm
  | cons md rest ih =>
    intro start m hm
    simp only [freshInstances, List.mem_cons] at hm
    simp only [freshInstances, List.length_cons]
    rcases hm with rfl | hm
    · simp
    · have := ih (start + 1) m hm
      omega

theorem cacheAllocated_clearModuleCache (l : desktop) : l.clearModuleCache.cacheAllocated := by
  intro m hm
  rw [clearModuleCache_eq] at hm
  simp [Slice.elems] at hm

theorem cacheAllocated_Modules (env : Env) (l : desktop) (h : l.cacheAllocated) :
    (l.Modules env).2.cacheAllocated := by
  cases hc : l.moduleCache with
  | some cache =>
    rw [Modules_of_cached env l cache hc]
    exact h
  | none =>
    rw [Modules_of_nil env l hc]
    intro m hm
    by_cases hins : freshInstances (enabledModules env l.settings) l.allocated = []
    · simp [hins, Slice.elems] at hm
    · simp only [hins, if_false, Slice.elems] at hm
      exact freshInstances_id_lt _ _ m hm

theorem startSettingsChangeListener_eq (env : Env) (l : desktop) (s : DeskSettings)
    (b : bar) (w : widgetPanel) (win : Window) (bg : background)
    (others : List CanvasObject)
    (hb : l.bar = some b) (hw : l.widgets = some w) (hroot : l.root = some win)
    (hcontent : win.content = some (CanvasObject.background bg :: others)) :
    l.startSettingsChangeListener env s =
      some { l with
        moduleCache :=
          if freshInstances (enabledModules env l.settings) l.allocated = [] then none
          else some (freshInstances (enabledModules env l.settings) l.allocated)
        bar := some { b with
          iconSize := (l.settings.LauncherIconSize : ℚ)
          iconScale := l.settings.LauncherZoomScale
          disableZoom := l.settings.LauncherDisableZoom }
        allocated := l.allocated +
          (freshInstances (enabledModules env l.settings) l.allocated).length
        calls := l.calls ++ l.moduleCache.elems.map Call.Destroy ++
          [Call.updateBackground s.Background] ++
          ((freshInstances (enabledModules env l.settings) l.allocated).map
            instanceCalls).flatten ++
          [Call.reloadModules (freshInstances (enabledModules env l.settings) l.allocated),
           Call.barUpdateIcons { b with
              iconSize := (l.settings.LauncherIconSize : ℚ)
              iconScale := l.settings.LauncherZoomScale
              disableZoom := l.settings.LauncherDisableZoom },
           Call.barUpdateIconOrder { b with
              iconSize := (l.settings.LauncherIconSize : ℚ)
              iconScale := l.settings.LauncherZoomScale
              disableZoom := l.settings.LauncherDisableZoom },
           Call.barUpdateTaskbar { b with
              iconSize := (l.settings.LauncherIconSize : ℚ)
              iconScale := l.settings.LauncherZoomScale
              disableZoom := l.settings.LauncherDisableZoom }] } := by
  simp only [desktop.startSettingsChangeListener, clearModuleCache_eq,
    desktop.updateBackgrounds, hroot, hcontent]
  rw [Modules_of_nil env _ rfl]
  by_cases hins : freshInstances (enabledModules env l.settings) l.allocated = []
  · simp [hw, hb, hins, Slice.elems]
  · simp [hw, hb, hins, Slice.elems]

/-- C10: for a settings-change event received once the root window is built
(root content, bar and widget panel present), one pass of the listener makes
its calls in this order: `Destroy` on every cached module (the invalidation),
the background update with the received background path, the factory calls
and shortcut registrations of `Modules()`, the widget-panel reload with the
modules `Modules()` has just built, and then, with the launcher icon size, zoom
scale and zoom-disabled flag of the settings already copied into the bar, the
bar's icon update, icon-order update and taskbar update.  The modules handed to
the widget panel are the ones cached afterwards and none of them is a module
the invalidation destroyed. -/
theorem settingsChange_order (env : Env) (l : desktop) (s : DeskSettings)
    (b : bar) (w : widgetPanel) (win : Window) (bg : background)
    (others : List CanvasObject)
    (hb : l.bar = some b) (hw : l.widgets = some w) (hroot : l.root = some win)
    (hcontent : win.content = some (CanvasObject.background bg :: others))
    (hcache : l.cacheAllocated) :
    ∃ l', l.startSettingsChangeListener env s = some l' ∧
      l'.calls = l.calls ++ l.moduleCache.elems.map Call.Destroy ++
        [Call.updateBackground s.Background] ++
        ((freshInstances (enabledModules env l.settings) l.allocated).map
          instanceCalls).flatten ++
        [Call.reloadModules (freshInstances (enabledModules env l.settings) l.allocated),
         Call.barUpdateIcons { b with
            iconSize := (l.settings.LauncherIconSize : ℚ)
            iconScale := l.settings.LauncherZoomScale
            disableZoom := l.settings.LauncherDisableZoom },
         Call.barUpdateIconOrder { b with
            iconSize := (l.settings.LauncherIconSize : ℚ)
            iconScale := l.settings.LauncherZoomScale
            disableZoom := l.settings.LauncherDisableZoom },
         Call.barUpdateTaskbar { b with
            iconSize := (l.settings.LauncherIconSize : ℚ)
            iconScale := l.settings.LauncherZoomScale
            disableZoom := l.settings.LauncherDisableZoom }] ∧
      l'.bar = some { b with
        iconSize := (l.settings.LauncherIconSize : ℚ)
        iconScale := l.settings.LauncherZoomScale
        disableZoom := l.settings.LauncherDisableZoom } ∧
      (l.clearModuleCache.Modules env).1.elems =
        freshInstances (enabledModules env l.settings) l.allocated ∧
      l'.moduleCache.elems = freshInstances (enabledModules env l.settings) l.allocated ∧
      (∀ m ∈ freshInstances (enabledModules env l.settings) l.allocated,
        m ∉ l.moduleCache.elems) ∧
      l'.cacheAllocated := by
  have hstep := startSettingsChangeListener_eq env l s b w win bg others hb hw hroot hcontent
  have hclear : l.clearModuleCache.cacheAllocated := cacheAllocated_clearModuleCache l
  have hinv := cacheAllocated_Modules env l.clearModuleCache hclear
  rw [Modules_of_nil env l.clearModuleCache (by rw [clearModuleCache_eq])] at hinv
  simp only [clearModuleCache_eq] at hinv
  refine ⟨_, hstep, ?_, rfl, Modules_after_clear_elems env l, ?_,
    freshInstances_not_cached l hcache _, hinv⟩
  · simp
  · by_cases hins : freshInstances (enabledModules env l.settings) l.allocated = []
    · simp [hins, Slice.elems]
    · simp [hins, Slice.elems]

/-- A settings change on the built sample desktop: the cached `Battery` module
is destroyed, `Launcher` and `Brightness` are built in registry order, and the
widget panel and the bar, with the launcher settings copied, are updated after
that. -/
theorem settingsChange_order_witness :
    ∃ l', builtDesktop.startSettingsChangeListener sampleEnv
        { builtDesktop.settings with Background := "new.png" } = some l' ∧
      l'.calls =
        [Call.Destroy { Name := "Battery", id := 0, Shortcuts := none },
         Call.updateBackground "new.png",
         Call.NewInstance launcherInstance,
         Call.AddShortcut { Name := "Open Launcher", KeyName := "Space", Modifier := 8 },
         Call.NewInstance { Name := "Brightness", id := 2, Shortcuts := none },
         Call.reloadModules
           [launcherInstance, { Name := "Brightness", id := 2, Shortcuts := none }],
         Call.barUpdateIcons
           { sampleBar with iconSize := 48, iconScale := 3 / 2, disableZoom := true },
         Call.barUpdateIconOrder
           { sampleBar with iconSize := 48, iconScale := 3 / 2, disableZoom := true },
         Call.barUpdateTaskbar
           { sampleBar with iconSize := 48, iconScale := 3 / 2, disableZoom := true }] := by
  obtain ⟨l', hstep, hcalls, _⟩ := settingsChange_order sampleEnv builtDesktop
    { builtDesktop.settings with Background := "new.png" } sampleBar samplePanel
    { size := { Width := .finite 1920, Height := .finite 1080 }
      content := some
        [CanvasObject.background { size := { Width := .finite 0, Height := .finite 0 } },
         CanvasObject.bar, CanvasObject.widgets, CanvasObject.mouse] }
    { size := { Width := .finite 0, Height := .finite 0 } }
    [CanvasObject.bar, CanvasObject.widgets, CanvasObject.mouse]
    rfl rfl rfl rfl
    (by intro m hm
        simp [builtDesktop, Slice.elems] at hm
        simp [hm, builtDesktop])
  refine ⟨l', hstep, ?_⟩
  rw [hcalls]
  simp [builtDesktop, sampleDesktop, sampleEnv, sampleBar, enabledModules, freshInstances,
    instanceCalls, Slice.elems, launcherInstance]

end FyneDesk
